import Mathlib

/-!
A shallow embedding of the `TypescriptDefinitionGenerator` class from
`ts-src/TypescriptDefinitionGenerator.ts` of the node-java-bridge repository,
together with proofs about the spec's claims on it.

Modelling conventions:
* TypeScript AST nodes built through `ts.factory` are modelled by the
  inductive types `TSType`, `TSParameter` and `ClassElement`; synthetic
  leading comments attached with `ts.addSyntheticLeadingComment` carry no
  structural information and are elided.
* Java reflection metadata (the part of the program reached through
  `importClassAsync` / `java.lang.reflect`) is modelled by `ClassInfo`;
  a modifier bitmask is modelled by the four predicate results the code
  queries (`Modifier.isPublic/isStatic/isFinal/isAbstract`).
* The mutable instance fields `resolvedImports`, `additionalImports`,
  `importsToResolve` and `usesBasicOrJavaType` are threaded explicitly as a
  `GenState` value; the readonly `classname` field is passed as an argument.
* The `async` structure of the source is irrelevant to the data flow
  (execution is strictly sequential, §5 of the spec), so all functions are
  plain functions; `generate` takes a fuel parameter to make the recursive
  traversal over the (possibly cyclic) class graph total, and reports fuel
  exhaustion as an error so that every successful (`Except.ok`) run of the
  model corresponds to a terminating run of the source.
-/

namespace TsGen

/-- Keyword type kinds used by the generator
(`SyntaxKind.NumberKeyword` etc. in the source). -/
inductive KeywordKind where
  | number
  | bigint
  | string
  | boolean
  | void
deriving Repr, DecidableEq

/-- TypeScript type nodes, as built by `ts.factory`:
`createKeywordTypeNode`, `createLiteralTypeNode(createNull())`,
`createTypeReferenceNode` (with optional type arguments, used only for
`Promise<T>`), `createArrayTypeNode` and `createUnionTypeNode`. -/
inductive TSType where
  | keyword (kind : KeywordKind)
  | nullLiteral
  | reference (name : String) (typeArguments : List TSType)
  | array (element : TSType)
  | union (types : List TSType)
deriving Repr

/-- TypeScript declaration modifiers used by the generator. -/
inductive TSModifier where
  | publicKw
  | staticKw
  | readonlyKw
  | privateKw
deriving Repr, DecidableEq

/-- A parameter declaration (`ts.factory.createParameterDeclaration`). -/
structure TSParameter where
  name : String
  type : TSType
deriving Repr

/-- A class member: a property declaration, a method declaration, or a
constructor declaration (the body of the private stub constructor is elided
together with all other non-structural trivia). -/
inductive ClassElement where
  | property (modifiers : List TSModifier) (name : String) (type : TSType)
  | methodDecl (modifiers : List TSModifier) (name : String)
      (parameters : List TSParameter) (returnType : TSType)
  | constructorDecl (modifiers : List TSModifier) (parameters : List TSParameter)
deriving Repr

/-- Result of the four `java.lang.reflect.Modifier` predicates on a modifier
bitmask; the code never stores the decoded bits, it only queries these. -/
structure Modifiers where
  isPublic : Bool
  isStatic : Bool
  isFinal : Bool
  isAbstract : Bool
deriving Repr, DecidableEq

/-- Metadata of one Java method (`DeclaredMethodClass`). -/
structure JMethod where
  modifiers : Modifiers
  name : String
  returnType : String
  parameterTypes : List String
deriving Repr, DecidableEq

/-- Metadata of one Java constructor (`DeclaredConstructorClass`). -/
structure JConstructor where
  modifiers : Modifiers
  parameterTypes : List String
deriving Repr, DecidableEq

/-- Metadata of one Java field (`FieldClass`). -/
structure JField where
  modifiers : Modifiers
  name : String
  type : String
deriving Repr, DecidableEq

/-- Metadata of one Java class (`ClassClass`), as obtained through the
reflection client. -/
structure ClassInfo where
  methods : List JMethod
  constructors : List JConstructor
  fields : List JField
  modifiers : Modifiers
  isInterface : Bool
deriving Repr, DecidableEq

/-- The `MethodDeclaration` interface of the source. -/
structure MethodDeclaration where
  returnType : String
  parameters : List String
  isStatic : Bool
deriving Repr, DecidableEq

/-- The mutable bookkeeping state of one `TypescriptDefinitionGenerator`
instance: the shared `resolvedImports` array together with the instance's
`additionalImports`, `importsToResolve` and `usesBasicOrJavaType` fields. -/
structure GenState where
  resolvedImports : List String
  additionalImports : List String
  importsToResolve : List String
  usesBasicOrJavaType : Bool
deriving Repr, DecidableEq

/-- `nonNullReturnMethods` of the source: methods which probably never
return null. -/
def nonNullReturnMethods : List String :=
  ["toString", "wait", "getClass", "hashCode", "notify", "notifyAll", "equals"]

/-- `name.replaceAll('.', '_')`: the pattern is the single character `.`,
so the replacement is a character map. -/
def dotsToUnderscores (s : String) : String :=
  String.mk (s.data.map (fun c => if c = '.' then '_' else c))

/-- `name.substring(name.lastIndexOf('.') + 1)`: everything after the last
dot (the whole string when there is no dot). -/
def lastSegment (s : String) : String :=
  String.mk ((s.data.reverse.takeWhile (fun c => ¬ c = '.')).reverse)

/-- Auxiliary state for `splitOnDot`: characters of the current segment,
in reverse. -/
def splitOnDotAux : List Char → List Char → List String
  | [], acc => [String.mk acc.reverse]
  | c :: rest, acc =>
    if c = '.' then String.mk acc.reverse :: splitOnDotAux rest []
    else splitOnDotAux rest (c :: acc)

/-- JavaScript `s.split('.')`. -/
def splitOnDot (s : String) : List String :=
  splitOnDotAux s.data []

/-- JavaScript `Array.prototype.join(sep)`. -/
def joinSep (sep : String) : List String → String
  | [] => ""
  | [x] => x
  | x :: y :: rest => x ++ sep ++ joinSep sep (y :: rest)

/-- First-occurrence deduplication, with an accumulator of already seen
elements: JavaScript `arr.filter((v, idx, self) => self.indexOf(v) === idx)`. -/
def dedupKeepFirstAux (seen : List String) : List String → List String
  | [] => []
  | x :: rest =>
    if x ∈ seen then dedupKeepFirstAux seen rest
    else x :: dedupKeepFirstAux (x :: seen) rest

/-- JavaScript `arr.filter(unique)` where `unique` keeps the first occurrence
of each value. -/
def dedupKeepFirst (l : List String) : List String :=
  dedupKeepFirstAux [] l

/-- `primitiveToClassType` of the source. -/
def primitiveToClassType (type : String) : String :=
  if type = "boolean" then "java.lang.Boolean"
  else if type = "byte" then "java.lang.Byte"
  else if type = "char" then "java.lang.Character"
  else if type = "short" then "java.lang.Short"
  else if type = "int" then "java.lang.Integer"
  else if type = "long" then "java.lang.Long"
  else if type = "float" then "java.lang.Float"
  else if type = "double" then "java.lang.Double"
  else type

/-- `isPrimitive` of the source. -/
def isPrimitive (type : String) : Bool :=
  type ∈ ["boolean", "byte", "char", "short", "int", "long", "float", "double"]

/-- The local `createTypeReferenceNode` closure of `javaTypeToTypescriptType`:
registers `name` in `additionalImports` (unless already resolved) and in
`importsToResolve`, and builds the reference node, using the simple name
(with a `Class` suffix in self-referential parameter position) for the class
currently being generated and the underscore-separated name otherwise. -/
def createTypeReferenceNode (classname : String) (isParam : Bool) (name : String)
    (st : GenState) : TSType × GenState :=
  let st1 :=
    if name ∈ st.resolvedImports then st
    else { st with additionalImports := st.additionalImports ++ [name] }
  let st2 := { st1 with importsToResolve := st1.importsToResolve ++ [name] }
  (TSType.reference
    (if name = classname then
      lastSegment name ++ (if isParam then "Class" else "")
    else dotsToUnderscores name) [], st2)

/-- The body of `javaTypeToTypescriptType`, with the java type name given as
its reversed character list so that stripping a trailing `[]`
(`javaType.substring(0, javaType.length - 2)` after the `endsWith('[]')`
check) is a structural recursion; `javaType` below reconstructs the string. -/
def mapJavaType (classname : String) (rev : List Char) (isParam : Bool)
    (strictNullTypes : Bool) (st : GenState) : TSType × GenState :=
  let javaType : String := String.mk rev.reverse
  let createType : TSType → TSType := fun t =>
    if strictNullTypes then TSType.union [t, TSType.nullLiteral] else t
  if javaType = "byte[]" ∨ javaType = "java.lang.Byte[]" then
    (createType (TSType.reference "Buffer" []), st)
  else
    match rev with
    | ']' :: '[' :: rest =>
      let r := mapJavaType classname rest isParam true st
      (createType (TSType.array r.1), r.2)
    | _ =>
      let createUnion : KeywordKind → List KeywordKind → TSType × GenState :=
        fun type additionalTypes =>
          let types : List TSType :=
            TSType.keyword type ::
              (if !isPrimitive javaType && strictNullTypes then
                [TSType.nullLiteral] else [])
          if !isParam then (TSType.union types, st)
          else
            let r := createTypeReferenceNode classname isParam
              (primitiveToClassType javaType) st
            (TSType.union (r.1 :: (additionalTypes.map TSType.keyword ++ types)),
              r.2)
      if javaType = "int" ∨ javaType = "java.lang.Integer" ∨
          javaType = "float" ∨ javaType = "java.lang.Float" ∨
          javaType = "double" ∨ javaType = "java.lang.Double" ∨
          javaType = "byte" ∨ javaType = "java.lang.Byte" ∨
          javaType = "short" ∨ javaType = "java.lang.Short" then
        createUnion KeywordKind.number []
      else if javaType = "long" ∨ javaType = "java.lang.Long" then
        createUnion KeywordKind.number [KeywordKind.bigint]
      else if javaType = "char" ∨ javaType = "java.lang.Character" ∨
          javaType = "java.lang.String" then
        (createType (TSType.keyword KeywordKind.string), st)
      else if javaType = "boolean" ∨ javaType = "java.lang.Boolean" then
        createUnion KeywordKind.boolean []
      else if javaType = "void" ∨ javaType = "java.lang.Void" then
        (TSType.keyword KeywordKind.void, st)
      else if javaType = "java.lang.Object" then
        (createType (TSType.reference "BasicOrJavaType" []),
          { st with usesBasicOrJavaType := true })
      else
        let r := createTypeReferenceNode classname isParam javaType st
        (createType r.1, r.2)

/-- `javaTypeToTypescriptType` of the source. -/
def javaTypeToTypescriptType (classname javaType : String) (isParam : Bool)
    (strictNullTypes : Bool) (st : GenState) : TSType × GenState :=
  mapJavaType classname javaType.data.reverse isParam strictNullTypes st

/-- `convertParameter` of the source: parameter `var<index>` whose type is the
mapped java type in parameter position (`strictNullTypes` defaulted to true). -/
def convertParameter (classname param : String) (index : Nat) (st : GenState) :
    TSParameter × GenState :=
  let r := javaTypeToTypescriptType classname param true true st
  (⟨"var" ++ toString index, r.1⟩, r.2)

/-- `params.map(this.convertParameter.bind(this))`, threading the generator
state left to right and numbering parameters from `start`. -/
def convertParamsAux (classname : String) : List String → Nat → GenState →
    List TSParameter × GenState
  | [], _, st => ([], st)
  | p :: rest, i, st =>
    let r := convertParameter classname p i st
    let rs := convertParamsAux classname rest (i + 1) r.2
    (r.1 :: rs.1, rs.2)

/-- `convertParameters` of the source. -/
def convertParameters (classname : String) (m : MethodDeclaration)
    (st : GenState) : List TSParameter × GenState :=
  convertParamsAux classname m.parameters 0 st

/-- `createMethod` of the source: `public` (+ `static` when the declaration is
static), the name suffixed with `Sync` for the synchronous variant, the return
type mapped in non-parameter position with null strictness suppressed for
non-null-return methods, and wrapped into `Promise<...>` for the asynchronous
variant. The index argument `i` only controls a leading comment in the source
and is kept for signature fidelity. -/
def createMethod (classname : String) (m : MethodDeclaration) (name : String)
    (i : Nat) (isSync nonNullReturnType : Bool) (st : GenState) :
    ClassElement × GenState :=
  let modifiers :=
    [TSModifier.publicKw] ++ (if m.isStatic then [TSModifier.staticKw] else [])
  let rret := javaTypeToTypescriptType classname m.returnType false
    (!nonNullReturnType) st
  let returnType :=
    if !isSync then TSType.reference "Promise" [rret.1] else rret.1
  let rparams := convertParameters classname m rret.2
  (ClassElement.methodDecl modifiers (name ++ (if isSync then "Sync" else ""))
    rparams.1 returnType, rparams.2)

/-- The loop body of `convertMethod`: for each overload, an asynchronous and a
synchronous declaration, in that order. -/
def convertMethodAux (classname name : String) (nonNull : Bool) :
    List MethodDeclaration → Nat → GenState → List ClassElement × GenState
  | [], _, st => ([], st)
  | m :: rest, i, st =>
    let ra := createMethod classname m name i false nonNull st
    let rs := createMethod classname m name i true nonNull ra.2
    let rr := convertMethodAux classname name nonNull rest (i + 1) rs.2
    (ra.1 :: rs.1 :: rr.1, rr.2)

/-- `convertMethod` of the source. -/
def convertMethod (classname : String) (method : List MethodDeclaration)
    (name : String) (st : GenState) : List ClassElement × GenState :=
  convertMethodAux classname name (nonNullReturnMethods.contains name) method 0 st

/-- Insertion into the `Record<string, MethodDeclaration[]>` accumulator of
`convertMethods`: `Object.hasOwn(result, name) ? result[name].push(data) :
result[name] = [data]`, on an association list whose keys are unique by
construction and ordered by first insertion (java method names are identifiers,
so the JavaScript integer-key reordering of `Object.entries` cannot occur). -/
def addMethodDecl : List (String × List MethodDeclaration) → String →
    MethodDeclaration → List (String × List MethodDeclaration)
  | [], name, d => [(name, [d])]
  | kv :: rest, name, d =>
    if kv.1 = name then (kv.1, kv.2 ++ [d]) :: rest
    else kv :: addMethodDecl rest name d

/-- The loop of `convertMethods`: public methods only, grouped by name. -/
def convertMethodsAux : List JMethod →
    List (String × List MethodDeclaration) →
    List (String × List MethodDeclaration)
  | [], result => result
  | m :: rest, result =>
    if m.modifiers.isPublic then
      convertMethodsAux rest
        (addMethodDecl result m.name ⟨m.returnType, m.parameterTypes, m.modifiers.isStatic⟩)
    else convertMethodsAux rest result

/-- `convertMethods` of the source. -/
def convertMethods (methods : List JMethod) :
    List (String × List MethodDeclaration) :=
  convertMethodsAux methods []

/-- The loop of `convertFields`: public fields become `public`
(+ `static` / `readonly`) property declarations whose type is the mapped field
type, mapped in parameter position (the source passes `isParam = true`) with
default null strictness. -/
def convertFieldsAux (classname : String) : List JField → GenState →
    List ClassElement × GenState
  | [], st => ([], st)
  | f :: rest, st =>
    if f.modifiers.isPublic then
      let tsModifiers :=
        [TSModifier.publicKw] ++
          (if f.modifiers.isStatic then [TSModifier.staticKw] else []) ++
          (if f.modifiers.isFinal then [TSModifier.readonlyKw] else [])
      let r := javaTypeToTypescriptType classname f.type true true st
      let rs := convertFieldsAux classname rest r.2
      (ClassElement.property tsModifiers f.name r.1 :: rs.1, rs.2)
    else convertFieldsAux classname rest st

/-- `createPrivateConstructor` of the source (the `super()` body is elided). -/
def createPrivateConstructor : ClassElement :=
  ClassElement.constructorDecl [TSModifier.privateKw] []

/-- The `tsConstructors` loop of `convertConstructors`: one public constructor
declaration per public constructor overload. -/
def convertCtorDecls (classname : String) : List (List String) → GenState →
    List ClassElement × GenState
  | [], st => ([], st)
  | t :: rest, st =>
    let rp := convertParamsAux classname t 0 st
    let rr := convertCtorDecls classname rest rp.2
    (ClassElement.constructorDecl [TSModifier.publicKw] rp.1 :: rr.1, rr.2)

/-- The `newInstanceMethods` loop of `convertConstructors`: one asynchronous
static `newInstance` factory per public constructor overload, whose declared
return type is the generated class itself. -/
def convertNewInstance (classname : String) : List (List String) → Nat →
    GenState → List ClassElement × GenState
  | [], _, st => ([], st)
  | t :: rest, i, st =>
    let rm := createMethod classname ⟨classname, t, true⟩ "newInstance" i
      false true st
    let rr := convertNewInstance classname rest (i + 1) rm.2
    (rm.1 :: rr.1, rr.2)

/-- `convertConstructors` of the source: the constructor declarations are
built first and the factory methods second (matching the source's evaluation
order for the state effects), but the result lists the factories before the
constructors (`[...newInstanceMethods, ...tsConstructors]`). -/
def convertConstructors (classname : String) (constructors : List JConstructor)
    (st : GenState) : List ClassElement × GenState :=
  let types :=
    (constructors.filter (fun c => c.modifiers.isPublic)).map
      (fun c => c.parameterTypes)
  let rc := convertCtorDecls classname types st
  let rn := convertNewInstance classname types 0 rc.2
  (rn.1 ++ rc.1, rn.2)

/-- The element-nulling loop of `getPath`: positions where both namespaces
agree are set to `null` in both arrays, stopping at the first mismatch (an
exhausted import array compares as `undefined` and also stops the loop). -/
def markCommonNull : List (Option String) → List (Option String) →
    List (Option String) × List (Option String)
  | x :: xs, y :: ys =>
    if x = y then
      let r := markCommonNull xs ys
      (none :: r.1, none :: r.2)
    else (x :: xs, y :: ys)
  | xs, ys => (xs, ys)

/-- JavaScript truthiness of a nulled namespace segment: `null` and the empty
string are falsy. -/
def truthySeg : Option String → Bool
  | none => false
  | some s => ¬ s = ""

/-- The local `getPath` closure of `getAdditionalImports`. -/
def getPath (classname i : String) : String :=
  let thisSplit := (splitOnDot classname).map some
  let importSplit := (splitOnDot i).map some
  let marked := markCommonNull thisSplit importSplit
  "./" ++
    joinSep "../" ((marked.1.filter truthySeg).map (fun _ => "")) ++
    joinSep "/" ((marked.2.filter truthySeg).filterMap id)

/-- An import declaration of the generated module: the class's simple name
imported under its underscore-separated alias from the relative path. -/
structure ImportSpec where
  propertyName : String
  aliasName : String
  path : String
deriving Repr, DecidableEq

/-- `getAdditionalImports` of the source: every resolved reference target
except the class itself, deduplicated keeping first occurrences. -/
def getAdditionalImports (classname : String) (importsToResolve : List String) :
    List ImportSpec :=
  (dedupKeepFirst (importsToResolve.filter (fun i => ¬ i = classname))).map
    (fun i => ⟨lastSegment i, dotsToUnderscores i, getPath classname i⟩)

/-- The structured contents of one generated module: the emitter's input
(import declarations, `declare class` members, export-statement class
members) plus `refs`, the instance's raw `importsToResolve` list, i.e. every
name that reached `createTypeReferenceNode` while this module was built. -/
structure ModuleContents where
  usesBasicOrJavaType : Bool
  additionalImports : List ImportSpec
  classMembers : List ClassElement
  exportClassMembers : List ClassElement
  refs : List String
deriving Repr

/-- The `ModuleDeclaration` interface of the source, with the printed source
text replaced by the structured contents it is printed from. -/
structure ModuleDeclaration where
  name : String
  contents : ModuleContents
deriving Repr

/-- The `onlyUnique` filter of `generate` applied to the field list: keep the
first field of each name. -/
def filterFirstByName (seen : List String) : List JField → List JField
  | [] => []
  | f :: rest =>
    if f.name ∈ seen then filterFirstByName seen rest
    else f :: filterFirstByName (f.name :: seen) rest

/-- The module-building part of `generate` (everything between the metadata
fetch and the recursion into `additionalImports`): fields, then method groups,
then — for concrete classes — constructors, assembled into the module
contents; abstract classes and interfaces get the private stub constructor in
the export statement instead of real constructors. -/
def convertGroups (classname : String) :
    List (String × List MethodDeclaration) → GenState →
    List ClassElement × GenState
  | [], st => ([], st)
  | kv :: rest, st =>
    let r := convertMethod classname kv.2 kv.1 st
    let rr := convertGroups classname rest r.2
    (r.1 ++ rr.1, rr.2)

/-- Builds the module contents for one class from its metadata, starting from
a fresh instance state over the shared `resolvedImports` list. -/
def buildModule (classname : String) (resolvedImports : List String)
    (cls : ClassInfo) : ModuleContents × GenState :=
  let st0 : GenState := ⟨resolvedImports, [], [], false⟩
  let fields := filterFirstByName [] cls.fields
  let r1 := convertFieldsAux classname fields st0
  let r2 := convertGroups classname (convertMethods cls.methods) r1.2
  let isAbsInt := cls.isInterface || cls.modifiers.isAbstract
  let r3 :=
    if isAbsInt then ([], r2.2)
    else convertConstructors classname cls.constructors r2.2
  let st := r3.2
  (⟨st.usesBasicOrJavaType,
    getAdditionalImports classname st.importsToResolve,
    r1.1 ++ r2.1 ++ r3.1,
    if isAbsInt then [createPrivateConstructor] else [],
    st.importsToResolve⟩, st)

/-- Failures of a generation run: the reflection client cannot resolve a
class, or the model's fuel ran out (the latter has no source counterpart; it
only makes the recursion total, and makes every `Except.ok` run of the model
correspond to a terminating run of the source). -/
inductive GenError where
  | classNotFound (name : String)
  | fuelExhausted
deriving Repr, DecidableEq

/-- The reflection client: a finite table from fully-qualified class names to
class metadata (`importClassAsync` fails on names outside the table). -/
def lookupEnv (env : List (String × ClassInfo)) (c : String) :
    Option ClassInfo :=
  match env.find? (fun kv => kv.1 == c) with
  | some kv => some kv.2
  | none => none

/-- The recursion loop of `generate` over `this.additionalImports`: each
newly discovered import is generated with the shared (already grown)
`resolvedImports` list, and the sub-results are concatenated; the first
failure aborts the loop (the mutated `resolvedImports` list survives, as the
source mutates it in place). -/
def generateMany
    (gen : String → List String →
      Except GenError (List ModuleDeclaration) × List String) :
    List String → List String →
    Except GenError (List ModuleDeclaration) × List String
  | [], resolvedImports => (.ok [], resolvedImports)
  | n :: rest, resolvedImports =>
    match gen n resolvedImports with
    | (.error e, r1) => (.error e, r1)
    | (.ok mods1, r1) =>
      match generateMany gen rest r1 with
      | (.error e, r2) => (.error e, r2)
      | (.ok mods2, r2) => (.ok (mods1 ++ mods2), r2)

/-- `generate` of the source: an already-resolved class immediately yields an
empty list; otherwise the class is pushed onto the shared `resolvedImports`
list (before its metadata is fetched), its module is built, the newly
discovered imports are generated recursively (depth-first, sequentially), and
the class's own module is appended after all sub-results. The progress
callback has no observable effect on the result and is elided. -/
def generate (env : List (String × ClassInfo)) :
    Nat → String → List String →
    Except GenError (List ModuleDeclaration) × List String
  | 0, classname, resolvedImports =>
    if classname ∈ resolvedImports then (.ok [], resolvedImports)
    else (.error .fuelExhausted, resolvedImports)
  | fuel + 1, classname, resolvedImports =>
    if classname ∈ resolvedImports then (.ok [], resolvedImports)
    else
      let resolved1 := resolvedImports ++ [classname]
      match lookupEnv env classname with
      | none => (.error (.classNotFound classname), resolved1)
      | some cls =>
        let bm := buildModule classname resolved1 cls
        match generateMany (fun n r => generate env fuel n r)
            bm.2.additionalImports resolved1 with
        | (.error e, r2) => (.error e, r2)
        | (.ok subMods, r2) => (.ok (subMods ++ [⟨classname, bm.1⟩]), r2)

/-! ### Observation helpers

Small accessors and predicates used to state properties of the generated
declarations without restating the generator's definitions. -/

/-- The name of a method declaration, `none` for other class elements. -/
def ClassElement.mName : ClassElement → Option String
  | .methodDecl _ n _ _ => some n
  | _ => none

/-- The return type of a method declaration. -/
def ClassElement.mReturn : ClassElement → Option TSType
  | .methodDecl _ _ _ r => some r
  | _ => none

/-- The parameter list of a method or constructor declaration. -/
def ClassElement.paramsOf : ClassElement → List TSParameter
  | .methodDecl _ _ ps _ => ps
  | .constructorDecl _ ps => ps
  | .property _ _ _ => []

/-- The declared type of a property declaration. -/
def ClassElement.propType : ClassElement → Option TSType
  | .property _ _ t => some t
  | _ => none

/-- Whether a class element is a constructor declaration. -/
def ClassElement.isCtor : ClassElement → Bool
  | .constructorDecl _ _ => true
  | _ => false

/-- Whether a class element is a method declaration with the given name. -/
def ClassElement.isMethodNamed (n : String) : ClassElement → Bool
  | .methodDecl _ m _ _ => m == n
  | _ => false

/-- Whether a class element carries the `static` modifier. -/
def ClassElement.isStaticEl : ClassElement → Bool
  | .methodDecl mods _ _ _ => mods.contains .staticKw
  | .property mods _ _ => mods.contains .staticKw
  | .constructorDecl mods _ => mods.contains .staticKw

/-- Whether a type node is a `Promise<T>` reference (the only reference node
the generator ever builds with a type argument). -/
def isPromiseType : TSType → Bool
  | .reference n args => n == "Promise" && args.length == 1
  | _ => false

/-- Unwraps a `Promise<T>` reference, the identity on any other type node. -/
def stripPromise : TSType → TSType
  | .reference n [t] => if n = "Promise" then t else .reference n [t]
  | t => t

/-- Whether a list of union members contains the null-literal type. -/
def listHasNull : List TSType → Bool
  | [] => false
  | .nullLiteral :: _ => true
  | _ :: rest => listHasNull rest

/-- Whether a type node is a union with the null-literal type among its
immediate members. -/
def hasTopNull : TSType → Bool
  | .union ts => listHasNull ts
  | _ => false

/-- Looks up the overload group of a method name in the grouping produced by
`convertMethods`. -/
def lookupGroup (name : String) (l : List (String × List MethodDeclaration)) :
    Option (List MethodDeclaration) :=
  match l.find? (fun kv => kv.1 == name) with
  | some kv => some kv.2
  | none => none

/-- The `MethodDeclaration` built by `convertMethods` for one public method. -/
def mkDecl (m : JMethod) : MethodDeclaration :=
  ⟨m.returnType, m.parameterTypes, m.modifiers.isStatic⟩

/-- Appending a possibly-empty overload group to an optional group (used to
describe `convertMethods` by the methods not yet traversed). -/
def combineG : Option (List MethodDeclaration) → List MethodDeclaration →
    Option (List MethodDeclaration)
  | some l, extra => some (l ++ extra)
  | none, [] => none
  | none, extra => some extra

/-- The bookkeeping invariant of a generator instance: every name registered
in `importsToResolve` was also registered in `additionalImports`, unless it
was already on the shared `resolvedImports` list when it was encountered. -/
def Inv (st : GenState) : Prop :=
  ∀ x ∈ st.importsToResolve, x ∈ st.additionalImports ∨ x ∈ st.resolvedImports

/-- Admissible state transition of the conversion phase: the shared
`resolvedImports` list is never written by the converters, and the
bookkeeping invariant is preserved. -/
def StepAdm (st st' : GenState) : Prop :=
  st'.resolvedImports = st.resolvedImports ∧ (Inv st → Inv st')

/-! ### Spec-side description of the import path computation

`pathBySpec` is written from the spec's words for claim C8 ("stripping the
longest common leading sequence of dotted segments and then ascending and
descending accordingly"), to be compared with `getPath`, which is translated
from the source. -/

/-- Length of the longest common leading sequence of two segment lists. -/
def commonLen : List String → List String → Nat
  | x :: xs, y :: ys => if x = y then commonLen xs ys + 1 else 0
  | _, _ => 0

/-- `n` parent-directory ascents. -/
def ascend : Nat → String
  | 0 => ""
  | n + 1 => "../" ++ ascend n

/-- The spec's description of the relative import path: strip the longest
common leading sequence of segments; the remaining segments on the importing
side (the last of which names the importing file itself) determine the number
of parent-directory ascents (`n` remaining segments yield `n - 1` ascents);
then descend along the remaining segments of the imported side. Empty
segments are dropped as falsy, as in the source. -/
def pathBySpec (classname i : String) : String :=
  let t := splitOnDot classname
  let im := splitOnDot i
  let k := commonLen t im
  let up := ((t.drop k).filter (fun s => ¬ s = "")).length
  "./" ++ ascend (up - 1) ++
    joinSep "/" ((im.drop k).filter (fun s => ¬ s = ""))

/-! ### Concrete fixtures used by witnesses and counterexamples -/

/-- The empty generator state (no resolved imports yet). -/
def stEmpty : GenState := ⟨[], [], [], false⟩

/-- A `public` (non-static, non-final, non-abstract) modifier bitmask. -/
def pubM : Modifiers := ⟨true, false, false, false⟩

/-- A `public abstract` modifier bitmask. -/
def pubAbstractM : Modifiers := ⟨true, false, false, true⟩

/-- A concrete class with no members. -/
def clsEmpty : ClassInfo := ⟨[], [], [], pubM, false⟩

/-- A concrete class with a single public field of the foreign type `b.B`. -/
def clsA : ClassInfo := ⟨[], [], [⟨pubM, "f", "b.B"⟩], pubM, false⟩

/-- A two-class environment: `a.A` references `b.B` through a field. -/
def envAB : List (String × ClassInfo) := [("a.A", clsA), ("b.B", clsEmpty)]

/-- A public nullary method `compute` returning `int`. -/
def mCompute0 : JMethod := ⟨pubM, "compute", "int", []⟩

/-- A public unary method `compute(int)` returning `int`. -/
def mCompute1 : JMethod := ⟨pubM, "compute", "int", ["int"]⟩

/-- A concrete class with two public overloads of `compute` and one public
unary constructor. -/
def clsOv : ClassInfo :=
  ⟨[mCompute0, mCompute1], [⟨pubM, ["java.lang.String"]⟩], [], pubM, false⟩

/-- An abstract class declaring one public constructor. -/
def clsAbs : ClassInfo := ⟨[], [⟨pubM, []⟩], [], pubAbstractM, true⟩

/-- The module the `envAB` run generates for `b.B`. -/
def modBB : ModuleDeclaration := ⟨"b.B", ⟨false, [], [], [], []⟩⟩

/-- The module the `envAB` run generates for `a.A`. -/
def modAA : ModuleDeclaration :=
  ⟨"a.A", ⟨false, [⟨"B", "b_B", "./../b/B"⟩],
    [ClassElement.property [TSModifier.publicKw] "f"
      (TSType.union [TSType.reference "b_B" [], TSType.nullLiteral])],
    [], ["b.B"]⟩⟩

/-- The full result list of the `envAB` run rooted at `a.A`. -/
def modsAB : List ModuleDeclaration := [modBB, modAA]

/-! ## Theorems -/

theorem stepAdm_refl (st : GenState) : StepAdm st st := ⟨rfl, id⟩

theorem stepAdm_comp {a b c : GenState} (h1 : StepAdm a b) (h2 : StepAdm b c) :
    StepAdm a c :=
  ⟨h1.1 ▸ h2.1, fun h => h2.2 (h1.2 h)⟩

theorem ctrn_resolved (c : String) (p : Bool) (n : String) (st : GenState) :
    (createTypeReferenceNode c p n st).2.resolvedImports = st.resolvedImports := by
  by_cases h : n ∈ st.resolvedImports <;> simp [createTypeReferenceNode, h]

theorem ctrn_step (c : String) (p : Bool) (n : String) (st : GenState) :
    StepAdm st (createTypeReferenceNode c p n st).2 := by
  refine ⟨ctrn_resolved c p n st, fun hInv x hx => ?_⟩
  by_cases h : n ∈ st.resolvedImports <;>
    simp only [createTypeReferenceNode, h, if_pos, if_neg, not_false_iff] at hx ⊢ <;>
    simp only [List.mem_append, List.mem_singleton] at hx
  · rcases hx with hx | rfl
    · exact hInv x hx
    · exact Or.inr h
  · rcases hx with hx | rfl
    · rcases hInv x hx with hx' | hx'
      · exact Or.inl (List.mem_append_left _ hx')
      · exact Or.inr hx'
    · exact Or.inl (List.mem_append_right _ (List.mem_singleton_self _))

set_option maxHeartbeats 1000000 in
theorem mapJavaType_step_aux (c : String) (n : Nat) :
    ∀ (rev : List Char) (p s : Bool) (st : GenState), rev.length ≤ n →
      StepAdm st (mapJavaType c rev p s st).2 := by
  induction n with
  | zero =>
    intro rev p s st hle
    unfold mapJavaType
    dsimp only
    repeat' split
    all_goals
      first
        | exact stepAdm_refl st
        | exact ctrn_step c p _ st
        | exact ⟨rfl, fun h => h⟩
        | (exfalso; simp at hle)
  | succ n ih =>
    intro rev p s st hle
    unfold mapJavaType
    dsimp only
    repeat' split
    all_goals
      first
        | exact stepAdm_refl st
        | exact ctrn_step c p _ st
        | exact ⟨rfl, fun h => h⟩
        | exact ih _ p true st (by simp at hle; omega)

theorem mapJavaType_step (c : String) (rev : List Char) (p s : Bool)
    (st : GenState) : StepAdm st (mapJavaType c rev p s st).2 :=
  mapJavaType_step_aux c rev.length rev p s st (Nat.le_refl _)

theorem jt_step (c jt : String) (p s : Bool) (st : GenState) :
    StepAdm st (javaTypeToTypescriptType c jt p s st).2 :=
  mapJavaType_step c jt.data.reverse p s st

theorem convertParameter_step (c p : String) (i : Nat) (st : GenState) :
    StepAdm st (convertParameter c p i st).2 :=
  jt_step c p true true st

theorem convertParamsAux_step (c : String) :
    ∀ (l : List String) (i : Nat) (st : GenState),
      StepAdm st (convertParamsAux c l i st).2 := by
  intro l
  induction l with
  | nil => intro i st; exact stepAdm_refl st
  | cons p rest ih =>
    intro i st
    exact stepAdm_comp (convertParameter_step c p i st)
      (ih (i + 1) (convertParameter c p i st).2)

theorem convertParameters_step (c : String) (m : MethodDeclaration)
    (st : GenState) : StepAdm st (convertParameters c m st).2 :=
  convertParamsAux_step c m.parameters 0 st

theorem createMethod_step (c : String) (m : MethodDeclaration) (name : String)
    (i : Nat) (isSync nonNull : Bool) (st : GenState) :
    StepAdm st (createMethod c m name i isSync nonNull st).2 :=
  stepAdm_comp (jt_step c m.returnType false (!nonNull) st)
    (convertParameters_step c m
      (javaTypeToTypescriptType c m.returnType false (!nonNull) st).2)

theorem convertMethodAux_step (c name : String) (nonNull : Bool) :
    ∀ (l : List MethodDeclaration) (i : Nat) (st : GenState),
      StepAdm st (convertMethodAux c name nonNull l i st).2 := by
  intro l
  induction l with
  | nil => intro i st; exact stepAdm_refl st
  | cons m rest ih =>
    intro i st
    exact stepAdm_comp (createMethod_step c m name i false nonNull st)
      (stepAdm_comp (createMethod_step c m name i true nonNull _) (ih (i + 1) _))

theorem convertMethod_step (c : String) (group : List MethodDeclaration)
    (name : String) (st : GenState) :
    StepAdm st (convertMethod c group name st).2 :=
  convertMethodAux_step c name (nonNullReturnMethods.contains name) group 0 st

theorem convertGroups_step (c : String) :
    ∀ (groups : List (String × List MethodDeclaration)) (st : GenState),
      StepAdm st (convertGroups c groups st).2 := by
  intro groups
  induction groups with
  | nil => intro st; exact stepAdm_refl st
  | cons kv rest ih =>
    intro st
    exact stepAdm_comp (convertMethod_step c kv.2 kv.1 st) (ih _)

theorem convertFieldsAux_step (c : String) :
    ∀ (fields : List JField) (st : GenState),
      StepAdm st (convertFieldsAux c fields st).2 := by
  intro fields
  induction fields with
  | nil => intro st; exact stepAdm_refl st
  | cons f rest ih =>
    intro st
    unfold convertFieldsAux
    split
    · exact stepAdm_comp (jt_step c f.type true true st) (ih _)
    · exact ih st

theorem convertCtorDecls_step (c : String) :
    ∀ (types : List (List String)) (st : GenState),
      StepAdm st (convertCtorDecls c types st).2 := by
  intro types
  induction types with
  | nil => intro st; exact stepAdm_refl st
  | cons t rest ih =>
    intro st
    exact stepAdm_comp (convertParamsAux_step c t 0 st) (ih _)

theorem convertNewInstance_step (c : String) :
    ∀ (types : List (List String)) (i : Nat) (st : GenState),
      StepAdm st (convertNewInstance c types i st).2 := by
  intro types
  induction types with
  | nil => intro i st; exact stepAdm_refl st
  | cons t rest ih =>
    intro i st
    exact stepAdm_comp (createMethod_step c ⟨c, t, true⟩ "newInstance" i false true st)
      (ih (i + 1) _)

theorem convertConstructors_step (c : String) (ctors : List JConstructor)
    (st : GenState) : StepAdm st (convertConstructors c ctors st).2 :=
  stepAdm_comp (convertCtorDecls_step c _ st) (convertNewInstance_step c _ 0 _)

theorem buildModule_step (c : String) (rI : List String) (cls : ClassInfo) :
    StepAdm (⟨rI, [], [], false⟩ : GenState) (buildModule c rI cls).2 := by
  unfold buildModule
  dsimp only
  split
  · exact stepAdm_comp (convertFieldsAux_step c _ _) (convertGroups_step c _ _)
  · exact stepAdm_comp (convertFieldsAux_step c _ _)
      (stepAdm_comp (convertGroups_step c _ _) (convertConstructors_step c _ _))

theorem buildModule_resolved (c : String) (rI : List String) (cls : ClassInfo) :
    (buildModule c rI cls).2.resolvedImports = rI :=
  (buildModule_step c rI cls).1

theorem buildModule_inv (c : String) (rI : List String) (cls : ClassInfo) :
    Inv (buildModule c rI cls).2 :=
  (buildModule_step c rI cls).2 (fun x hx => absurd hx (List.not_mem_nil x))

theorem buildModule_refs (c : String) (rI : List String) (cls : ClassInfo) :
    (buildModule c rI cls).1.refs = (buildModule c rI cls).2.importsToResolve := by
  unfold buildModule
  dsimp only

/-! ### Unfolding lemmas for `generate` -/

theorem generate_mem (env : List (String × ClassInfo)) (fuel : Nat)
    (c : String) (r : List String) (hc : c ∈ r) :
    generate env fuel c r = (.ok [], r) := by
  cases fuel <;> simp [generate, hc]

theorem generate_zero (env : List (String × ClassInfo)) (c : String)
    (r : List String) (hc : ¬ c ∈ r) :
    generate env 0 c r = (.error .fuelExhausted, r) := by
  simp [generate, hc]

theorem generate_notfound (env : List (String × ClassInfo)) (fuel : Nat)
    (c : String) (r : List String) (hc : ¬ c ∈ r)
    (hl : lookupEnv env c = none) :
    generate env (fuel + 1) c r = (.error (.classNotFound c), r ++ [c]) := by
  simp [generate, hc, hl]

theorem generate_succ_eq (env : List (String × ClassInfo)) (fuel : Nat)
    (c : String) (r : List String) (hc : ¬ c ∈ r) (cls : ClassInfo)
    (hl : lookupEnv env c = some cls) :
    generate env (fuel + 1) c r =
      (match generateMany (fun n r => generate env fuel n r)
          (buildModule c (r ++ [c]) cls).2.additionalImports (r ++ [c]) with
        | (.error e, r2) => (.error e, r2)
        | (.ok subMods, r2) =>
          (.ok (subMods ++ [⟨c, (buildModule c (r ++ [c]) cls).1⟩]), r2)) := by
  simp [generate, hc, hl]

/-! ### Traversal invariants -/

theorem gm_grow
    (gen : String → List String →
      Except GenError (List ModuleDeclaration) × List String)
    (hg : ∀ n r, ∃ e, (gen n r).2 = r ++ e) :
    ∀ (names r : List String), ∃ e, (generateMany gen names r).2 = r ++ e := by
  intro names
  induction names with
  | nil => intro r; exact ⟨[], by simp [generateMany]⟩
  | cons n rest ih =>
    intro r
    rcases hgen : gen n r with ⟨res, r1⟩
    rcases hg n r with ⟨e1, he1⟩
    rw [hgen] at he1
    dsimp only at he1
    subst he1
    cases res with
    | error err => exact ⟨e1, by simp [generateMany, hgen]⟩
    | ok mods1 =>
      rcases hrest : generateMany gen rest (r ++ e1) with ⟨res2, r2⟩
      rcases ih (r ++ e1) with ⟨e2, he2⟩
      rw [hrest] at he2
      dsimp only at he2
      subst he2
      cases res2 with
      | error err =>
        exact ⟨e1 ++ e2, by simp [generateMany, hgen, hrest, List.append_assoc]⟩
      | ok mods2 =>
        exact ⟨e1 ++ e2, by simp [generateMany, hgen, hrest, List.append_assoc]⟩

theorem g_grow (env : List (String × ClassInfo)) (fuel : Nat) :
    ∀ (c : String) (r : List String), ∃ e, (generate env fuel c r).2 = r ++ e := by
  induction fuel with
  | zero =>
    intro c r
    by_cases hc : c ∈ r
    · exact ⟨[], by simp [generate_mem env 0 c r hc]⟩
    · exact ⟨[], by simp [generate_zero env c r hc]⟩
  | succ fuel ih =>
    intro c r
    by_cases hc : c ∈ r
    · exact ⟨[], by simp [generate_mem env (fuel + 1) c r hc]⟩
    · rcases hl : lookupEnv env c with _ | cls
      · exact ⟨[c], by simp [generate_notfound env fuel c r hc hl]⟩
      · rcases gm_grow (fun n r => generate env fuel n r) ih
          (buildModule c (r ++ [c]) cls).2.additionalImports (r ++ [c]) with ⟨e, he⟩
        refine ⟨[c] ++ e, ?_⟩
        rw [generate_succ_eq env fuel c r hc cls hl]
        rcases hgm : generateMany (fun n r => generate env fuel n r)
            (buildModule c (r ++ [c]) cls).2.additionalImports (r ++ [c]) with ⟨res, r2⟩
        rw [hgm] at he
        dsimp only at he
        cases res <;> (dsimp only; rw [he, List.append_assoc])

theorem g_mem_of_ok (env : List (String × ClassInfo)) :
    ∀ (fuel : Nat) (c : String) (r : List String) mods r',
      generate env fuel c r = (.ok mods, r') → c ∈ r' := by
  intro fuel c r mods r' h
  by_cases hc : c ∈ r
  · rw [generate_mem env fuel c r hc] at h
    simp only [Prod.mk.injEq, Except.ok.injEq] at h
    rw [← h.2]
    exact hc
  · cases fuel with
    | zero => rw [generate_zero env c r hc] at h; simp at h
    | succ fuel =>
      rcases hl : lookupEnv env c with _ | cls
      · rw [generate_notfound env fuel c r hc hl] at h; simp at h
      · rw [generate_succ_eq env fuel c r hc cls hl] at h
        rcases hgm : generateMany (fun n r => generate env fuel n r)
            (buildModule c (r ++ [c]) cls).2.additionalImports (r ++ [c]) with ⟨res, r2⟩
        rw [hgm] at h
        rcases gm_grow (fun n r => generate env fuel n r) (g_grow env fuel)
            (buildModule c (r ++ [c]) cls).2.additionalImports (r ++ [c]) with ⟨e, he⟩
        rw [hgm] at he
        dsimp only at he
        cases res with
        | error err => simp at h
        | ok subMods =>
          simp only [Prod.mk.injEq, Except.ok.injEq] at h
          rw [← h.2, he]
          simp

theorem gm_mem
    (gen : String → List String →
      Except GenError (List ModuleDeclaration) × List String)
    (hg : ∀ n r, ∃ e, (gen n r).2 = r ++ e)
    (hmem : ∀ n r mods r', gen n r = (.ok mods, r') → n ∈ r') :
    ∀ (names r : List String) mods r',
      generateMany gen names r = (.ok mods, r') → ∀ n ∈ names, n ∈ r' := by
  intro names
  induction names with
  | nil => intro r mods r' h n hn; exact absurd hn (List.not_mem_nil n)
  | cons n0 rest ih =>
    intro r mods r' h n hn
    rcases hgen : gen n0 r with ⟨res, r1⟩
    cases res with
    | error err => rw [generateMany, hgen] at h; simp at h
    | ok mods1 =>
      rcases hrest : generateMany gen rest r1 with ⟨res2, r2⟩
      cases res2 with
      | error err =>
        rw [generateMany, hgen] at h
        dsimp only at h
        rw [hrest] at h
        simp at h
      | ok mods2 =>
        rw [generateMany, hgen] at h
        dsimp only at h
        rw [hrest] at h
        simp only [Prod.mk.injEq, Except.ok.injEq] at h
        rcases List.mem_cons.mp hn with rfl | hn'
        · rcases gm_grow gen hg rest r1 with ⟨e, he⟩
          rw [hrest] at he
          dsimp only at he
          rw [← h.2, he]
          exact List.mem_append_left e (hmem n r mods1 r1 hgen)
        · rw [← h.2]
          exact ih r1 mods2 r2 hrest n hn'

theorem gm_perm
    (gen : String → List String →
      Except GenError (List ModuleDeclaration) × List String)
    (hgen : ∀ n r mods r', gen n r = (.ok mods, r') →
      List.Perm r' (r ++ mods.map ModuleDeclaration.name) ∧
      (mods.map ModuleDeclaration.name).Nodup ∧
      ∀ x ∈ mods.map ModuleDeclaration.name, ¬ x ∈ r) :
    ∀ (names r : List String) mods r',
      generateMany gen names r = (.ok mods, r') →
      List.Perm r' (r ++ mods.map ModuleDeclaration.name) ∧
      (mods.map ModuleDeclaration.name).Nodup ∧
      ∀ x ∈ mods.map ModuleDeclaration.name, ¬ x ∈ r := by
  intro names
  induction names with
  | nil =>
    intro r mods r' h
    rw [generateMany] at h
    simp only [Prod.mk.injEq, Except.ok.injEq] at h
    rw [← h.1, ← h.2]
    exact ⟨by simp, by simp, by simp⟩
  | cons n0 rest ih =>
    intro r mods r' h
    rcases hgen1 : gen n0 r with ⟨res, r1⟩
    cases res with
    | error err => rw [generateMany, hgen1] at h; simp at h
    | ok mods1 =>
      rcases hrest : generateMany gen rest r1 with ⟨res2, r2⟩
      cases res2 with
      | error err =>
        rw [generateMany, hgen1] at h
        dsimp only at h
        rw [hrest] at h
        simp at h
      | ok mods2 =>
        rw [generateMany, hgen1] at h
        dsimp only at h
        rw [hrest] at h
        simp only [Prod.mk.injEq, Except.ok.injEq] at h
        obtain ⟨p1, nd1, dj1⟩ := hgen n0 r mods1 r1 hgen1
        obtain ⟨p2, nd2, dj2⟩ := ih r1 mods2 r2 hrest
        have hsub1 : ∀ x ∈ mods1.map ModuleDeclaration.name, x ∈ r1 := by
          intro x hx
          exact (p1.mem_iff).mpr (List.mem_append_right r hx)
        have hsubr : ∀ x ∈ r, x ∈ r1 := by
          intro x hx
          exact (p1.mem_iff).mpr (List.mem_append_left _ hx)
        refine ⟨?_, ?_, ?_⟩
        · rw [← h.1, ← h.2]
          simp only [List.map_append]
          rw [← List.append_assoc]
          exact p2.trans (p1.append_right _)
        · rw [← h.1]
          simp only [List.map_append]
          rw [List.nodup_append]
          refine ⟨nd1, nd2, ?_⟩
          intro x hx1 hx2
          exact dj2 x hx2 (hsub1 x hx1)
        · intro x hx hxr
          rw [← h.1] at hx
          simp only [List.map_append, List.mem_append] at hx
          rcases hx with hx | hx
          · exact dj1 x hx hxr
          · exact dj2 x hx (hsubr x hxr)

theorem g_perm (env : List (String × ClassInfo)) :
    ∀ (fuel : Nat) (c : String) (r : List String) mods r',
      generate env fuel c r = (.ok mods, r') →
      List.Perm r' (r ++ mods.map ModuleDeclaration.name) ∧
      (mods.map ModuleDeclaration.name).Nodup ∧
      ∀ x ∈ mods.map ModuleDeclaration.name, ¬ x ∈ r := by
  intro fuel
  induction fuel with
  | zero =>
    intro c r mods r' h
    by_cases hc : c ∈ r
    · rw [generate_mem env 0 c r hc] at h
      simp only [Prod.mk.injEq, Except.ok.injEq] at h
      rw [← h.1, ← h.2]
      exact ⟨by simp, by simp, by simp⟩
    · rw [generate_zero env c r hc] at h; simp at h
  | succ fuel ih =>
    intro c r mods r' h
    by_cases hc : c ∈ r
    · rw [generate_mem env (fuel + 1) c r hc] at h
      simp only [Prod.mk.injEq, Except.ok.injEq] at h
      rw [← h.1, ← h.2]
      exact ⟨by simp, by simp, by simp⟩
    · rcases hl : lookupEnv env c with _ | cls
      · rw [generate_notfound env fuel c r hc hl] at h; simp at h
      · rw [generate_succ_eq env fuel c r hc cls hl] at h
        rcases hgm : generateMany (fun n r => generate env fuel n r)
            (buildModule c (r ++ [c]) cls).2.additionalImports (r ++ [c]) with ⟨res, r2⟩
        rw [hgm] at h
        cases res with
        | error err => simp at h
        | ok subMods =>
          simp only [Prod.mk.injEq, Except.ok.injEq] at h
          obtain ⟨p, nd, dj⟩ := gm_perm (fun n r => generate env fuel n r) ih
            (buildModule c (r ++ [c]) cls).2.additionalImports (r ++ [c])
            subMods r2 hgm
          have hcN : ¬ c ∈ subMods.map ModuleDeclaration.name := by
            intro hcn
            exact dj c hcn (List.mem_append_right r (List.mem_singleton_self c))
          refine ⟨?_, ?_, ?_⟩
          · rw [← h.1, ← h.2]
            simp only [List.map_append, List.map_cons, List.map_nil]
            have e1 : (r ++ [c]) ++ subMods.map ModuleDeclaration.name
                = r ++ (c :: subMods.map ModuleDeclaration.name) := by
              rw [List.append_assoc]
              rfl
            have p3 : List.Perm r2 (r ++ (c :: subMods.map ModuleDeclaration.name)) :=
              e1 ▸ p
            exact p3.trans (List.Perm.append_left r
              (List.perm_append_singleton c _).symm)
          · rw [← h.1]
            simp only [List.map_append, List.map_cons, List.map_nil]
            rw [List.nodup_append]
            refine ⟨nd, by simp, ?_⟩
            intro x hx1 hx2
            simp only [List.mem_singleton] at hx2
            subst hx2
            exact hcN hx1
          · intro x hx hxr
            rw [← h.1] at hx
            simp only [List.map_append, List.map_cons, List.map_nil,
              List.mem_append, List.mem_singleton] at hx
            rcases hx with hx | rfl
            · exact dj x hx (List.mem_append_left _ hxr)
            · exact hc hxr

theorem gm_refs
    (gen : String → List String →
      Except GenError (List ModuleDeclaration) × List String)
    (hg : ∀ n r, ∃ e, (gen n r).2 = r ++ e)
    (hrefs : ∀ n r mods r', gen n r = (.ok mods, r') →
      ∀ m ∈ mods, ∀ x ∈ m.contents.refs, x ∈ r') :
    ∀ (names r : List String) mods r',
      generateMany gen names r = (.ok mods, r') →
      ∀ m ∈ mods, ∀ x ∈ m.contents.refs, x ∈ r' := by
  intro names
  induction names with
  | nil =>
    intro r mods r' h m hm
    rw [generateMany] at h
    simp only [Prod.mk.injEq, Except.ok.injEq] at h
    rw [← h.1] at hm
    exact absurd hm (List.not_mem_nil m)
  | cons n0 rest ih =>
    intro r mods r' h m hm x hx
    rcases hgen : gen n0 r with ⟨res, r1⟩
    cases res with
    | error err => rw [generateMany, hgen] at h; simp at h
    | ok mods1 =>
      rcases hrest : generateMany gen rest r1 with ⟨res2, r2⟩
      cases res2 with
      | error err =>
        rw [generateMany, hgen] at h
        dsimp only at h
        rw [hrest] at h
        simp at h
      | ok mods2 =>
        rw [generateMany, hgen] at h
        dsimp only at h
        rw [hrest] at h
        simp only [Prod.mk.injEq, Except.ok.injEq] at h
        rw [← h.1] at hm
        rcases List.mem_append.mp hm with hm1 | hm2
        · rcases gm_grow gen hg rest r1 with ⟨e, he⟩
          rw [hrest] at he
          dsimp only at he
          rw [← h.2, he]
          exact List.mem_append_left e (hrefs n0 r mods1 r1 hgen m hm1 x hx)
        · rw [← h.2]
          exact ih r1 mods2 r2 hrest m hm2 x hx

theorem g_refs (env : List (String × ClassInfo)) :
    ∀ (fuel : Nat) (c : String) (r : List String) mods r',
      generate env fuel c r = (.ok mods, r') →
      ∀ m ∈ mods, ∀ x ∈ m.contents.refs, x ∈ r' := by
  intro fuel
  induction fuel with
  | zero =>
    intro c r mods r' h m hm
    by_cases hc : c ∈ r
    · rw [generate_mem env 0 c r hc] at h
      simp only [Prod.mk.injEq, Except.ok.injEq] at h
      rw [← h.1] at hm
      exact absurd hm (List.not_mem_nil m)
    · rw [generate_zero env c r hc] at h; simp at h
  | succ fuel ih =>
    intro c r mods r' h m hm x hx
    by_cases hc : c ∈ r
    · rw [generate_mem env (fuel + 1) c r hc] at h
      simp only [Prod.mk.injEq, Except.ok.injEq] at h
      rw [← h.1] at hm
      exact absurd hm (List.not_mem_nil m)
    · rcases hl : lookupEnv env c with _ | cls
      · rw [generate_notfound env fuel c r hc hl] at h; simp at h
      · rw [generate_succ_eq env fuel c r hc cls hl] at h
        rcases hgm : generateMany (fun n r => generate env fuel n r)
            (buildModule c (r ++ [c]) cls).2.additionalImports (r ++ [c]) with ⟨res, r2⟩
        rw [hgm] at h
        cases res with
        | error err => simp at h
        | ok subMods =>
          simp only [Prod.mk.injEq, Except.ok.injEq] at h
          rcases gm_grow (fun n r => generate env fuel n r) (g_grow env fuel)
              (buildModule c (r ++ [c]) cls).2.additionalImports (r ++ [c]) with ⟨e, he⟩
          rw [hgm] at he
          dsimp only at he
          rw [← h.1] at hm
          rw [← h.2]
          rcases List.mem_append.mp hm with hm1 | hm2
          · exact gm_refs (fun n r => generate env fuel n r) (g_grow env fuel)
              ih (buildModule c (r ++ [c]) cls).2.additionalImports (r ++ [c])
              subMods r2 hgm m hm1 x hx
          · simp only [List.mem_singleton] at hm2
            subst hm2
            rw [buildModule_refs c (r ++ [c]) cls] at hx
            rcases buildModule_inv c (r ++ [c]) cls x hx with hadd | hres
            · exact gm_mem (fun n r => generate env fuel n r) (g_grow env fuel)
                (fun n r mods r' hh => g_mem_of_ok env fuel n r mods r' hh)
                (buildModule c (r ++ [c]) cls).2.additionalImports (r ++ [c])
                subMods r2 hgm x hadd
            · rw [buildModule_resolved c (r ++ [c]) cls] at hres
              rw [he]
              exact List.mem_append_left e hres

/-- C1: in every generation run, each fully-qualified class name is the name
of at most one `ModuleDeclaration` in the returned result list; invoking
`generate` for a class name already present in the run's `resolvedImports`
list (directly, via a reference cycle, or via a shared list) returns an empty
list and emits no second module; and the `resolvedImports` list only grows
(elements are appended, never removed) for the lifetime of the run. -/
theorem C1_generate_at_most_once :
    ∀ (env : List (String × ClassInfo)) (fuel : Nat) (c : String)
      (r : List String),
      (c ∈ r → generate env fuel c r = (.ok [], r)) ∧
      (∃ e, (generate env fuel c r).2 = r ++ e) ∧
      (∀ mods r', generate env fuel c r = (.ok mods, r') →
        (mods.map ModuleDeclaration.name).Nodup) :=
  fun env fuel c r =>
    ⟨fun hc => generate_mem env fuel c r hc,
     g_grow env fuel c r,
     fun mods r' h => (g_perm env fuel c r mods r' h).2.1⟩

theorem C1_generate_at_most_once_witness :
    (generate envAB 2 "a.A" ["a.A"] = (.ok [], ["a.A"])) ∧
    (modsAB.map ModuleDeclaration.name).Nodup :=
  ⟨(C1_generate_at_most_once envAB 2 "a.A" ["a.A"]).1 (by simp),
   (C1_generate_at_most_once envAB 2 "a.A" []).2.2 modsAB ["a.A", "b.B"] rfl⟩

/-- C2: in a generation run started with an empty `resolvedImports` list,
every foreign class name that reaches the type mapper's class-reference
branch while building any emitted module (collected in that module's
`importsToResolve` list, exposed as `refs`) has a corresponding
`ModuleDeclaration` in the list returned by `generate`. -/
theorem C2_closure_completeness :
    ∀ (env : List (String × ClassInfo)) (fuel : Nat) (c : String)
      (mods : List ModuleDeclaration) (r' : List String),
      generate env fuel c [] = (.ok mods, r') →
      ∀ m ∈ mods, ∀ n ∈ m.contents.refs, ∃ m' ∈ mods, m'.name = n := by
  intro env fuel c mods r' h m hm n hn
  have hr : n ∈ r' := g_refs env fuel c [] mods r' h m hm n hn
  have hperm := (g_perm env fuel c [] mods r' h).1
  have hnm : n ∈ mods.map ModuleDeclaration.name := by
    have := hperm.mem_iff.mp hr
    simpa using this
  rcases List.mem_map.mp hnm with ⟨m', hm', hname⟩
  exact ⟨m', hm', hname⟩

theorem C2_closure_completeness_witness :
    ∃ m' ∈ modsAB, m'.name = "b.B" :=
  C2_closure_completeness envAB 2 "a.A" modsAB ["a.A", "b.B"] rfl modAA
    (by simp [modsAB]) "b.B" (by simp [modAA])

/-- C3 counterexample: a public field of type `java.lang.Integer` is mapped
(with the parameter-position flag, which `convertFields` sets) to a union
that DOES contain the boxed-wrapper reference type `java_lang_Integer`,
refuting the claim that the field union consists of exactly the numeric type
and the null-literal type with no boxed-wrapper reference. -/
theorem C3_counterexample :
    ((convertFieldsAux "a.A" [⟨pubM, "x", "java.lang.Integer"⟩] stEmpty).1
      = [ClassElement.property [TSModifier.publicKw] "x"
          (TSType.union [TSType.reference "java_lang_Integer" [],
            TSType.keyword KeywordKind.number, TSType.nullLiteral])]) ∧
    TSType.reference "java_lang_Integer" [] ∈
      [TSType.reference "java_lang_Integer" [],
        TSType.keyword KeywordKind.number, TSType.nullLiteral] :=
  ⟨rfl, List.mem_cons_self _ _⟩

/-- C3 (amended): a boxed numeric field type is mapped exactly as in
method-parameter position — `convertFields` passes the parameter-position
flag — to a union of the boxed-wrapper reference type, the numeric type and
the null-literal type; a boxed numeric method parameter maps to the same
union, which includes the boxed-wrapper reference type. -/
theorem C3_boxed_field_widened :
    ∀ (classname : String) (m : Modifiers) (fname : String) (i : Nat)
      (st : GenState),
      m.isPublic = true → ¬ classname = "java.lang.Integer" →
      (((convertFieldsAux classname [⟨m, fname, "java.lang.Integer"⟩] st).1.map
          ClassElement.propType)
        = [some (TSType.union [TSType.reference "java_lang_Integer" [],
            TSType.keyword KeywordKind.number, TSType.nullLiteral])]) ∧
      ((convertParameter classname "java.lang.Integer" i st).1.type
        = TSType.union [TSType.reference "java_lang_Integer" [],
            TSType.keyword KeywordKind.number, TSType.nullLiteral]) := by
  intro classname m fname i st hm hc
  have key : ∀ (st' : GenState),
      (javaTypeToTypescriptType classname "java.lang.Integer" true true st').1
        = TSType.union [TSType.reference
            (if "java.lang.Integer" = classname then
              lastSegment "java.lang.Integer" ++ "Class"
            else dotsToUnderscores "java.lang.Integer") [],
          TSType.keyword KeywordKind.number, TSType.nullLiteral] :=
    fun st' => rfl
  constructor
  · simp only [convertFieldsAux, hm, if_pos]
    simp only [List.map_cons, List.map_nil, ClassElement.propType]
    rw [key st, if_neg (Ne.symm hc)]
    exact rfl
  · show (javaTypeToTypescriptType classname "java.lang.Integer" true true st).1
      = _
    rw [key st, if_neg (Ne.symm hc)]
    exact rfl

theorem C3_boxed_field_widened_witness :
    (((convertFieldsAux "a.A" [⟨pubM, "x", "java.lang.Integer"⟩] stEmpty).1.map
        ClassElement.propType)
      = [some (TSType.union [TSType.reference "java_lang_Integer" [],
          TSType.keyword KeywordKind.number, TSType.nullLiteral])]) ∧
    ((convertParameter "a.A" "java.lang.Integer" 0 stEmpty).1.type
      = TSType.union [TSType.reference "java_lang_Integer" [],
          TSType.keyword KeywordKind.number, TSType.nullLiteral]) :=
  C3_boxed_field_widened "a.A" pubM "x" 0 stEmpty rfl (by decide)

/-- C4 counterexample: in non-parameter (return) position, the foreign type
`long` maps to a union containing only the numeric type — the
arbitrary-precision bigint member is absent, refuting the claim that the
bigint member is present in every position. -/
theorem C4_counterexample :
    ((javaTypeToTypescriptType "a.A" "long" false true stEmpty).1
      = TSType.union [TSType.keyword KeywordKind.number]) ∧
    ¬ TSType.keyword KeywordKind.bigint ∈ [TSType.keyword KeywordKind.number] :=
  ⟨rfl, by simp⟩

/-- C4 (amended): in parameter position, `long` and `java.lang.Long` map to
a union of the boxed-wrapper reference, the bigint type and the numeric type,
plus a null-literal member when nullability is requested and the source type
is not the primitive `long`; in non-parameter (return) position the union
contains only the numeric type (plus the null-literal under the same
condition) — the bigint member appears in parameter position only. -/
theorem C4_long_union :
    ∀ (classname : String) (strict : Bool) (st : GenState),
      ¬ classname = "java.lang.Long" →
      ((javaTypeToTypescriptType classname "long" true strict st).1
        = TSType.union [TSType.reference "java_lang_Long" [],
            TSType.keyword KeywordKind.bigint, TSType.keyword KeywordKind.number]) ∧
      ((javaTypeToTypescriptType classname "java.lang.Long" true strict st).1
        = TSType.union ([TSType.reference "java_lang_Long" [],
            TSType.keyword KeywordKind.bigint, TSType.keyword KeywordKind.number] ++
            (if strict then [TSType.nullLiteral] else []))) ∧
      ((javaTypeToTypescriptType classname "long" false strict st).1
        = TSType.union [TSType.keyword KeywordKind.number]) ∧
      ((javaTypeToTypescriptType classname "java.lang.Long" false strict st).1
        = TSType.union ([TSType.keyword KeywordKind.number] ++
            (if strict then [TSType.nullLiteral] else []))) := by
  intro classname strict st hc
  have key1 : (javaTypeToTypescriptType classname "long" true strict st).1
      = TSType.union [TSType.reference
          (if "java.lang.Long" = classname then
            lastSegment "java.lang.Long" ++ "Class"
          else dotsToUnderscores "java.lang.Long") [],
        TSType.keyword KeywordKind.bigint, TSType.keyword KeywordKind.number] := by
    cases strict <;> rfl
  have key2 : (javaTypeToTypescriptType classname "java.lang.Long" true strict st).1
      = TSType.union ([TSType.reference
          (if "java.lang.Long" = classname then
            lastSegment "java.lang.Long" ++ "Class"
          else dotsToUnderscores "java.lang.Long") [],
        TSType.keyword KeywordKind.bigint, TSType.keyword KeywordKind.number] ++
        (if strict then [TSType.nullLiteral] else [])) := by
    cases strict <;> rfl
  refine ⟨?_, ?_, ?_, ?_⟩
  · rw [key1, if_neg (Ne.symm hc)]
    exact rfl
  · rw [key2, if_neg (Ne.symm hc)]
    exact rfl
  · cases strict <;> rfl
  · cases strict <;> rfl

theorem C4_long_union_witness :
    ((javaTypeToTypescriptType "a.A" "long" true true stEmpty).1
      = TSType.union [TSType.reference "java_lang_Long" [],
          TSType.keyword KeywordKind.bigint, TSType.keyword KeywordKind.number]) ∧
    ((javaTypeToTypescriptType "a.A" "java.lang.Long" true true stEmpty).1
      = TSType.union ([TSType.reference "java_lang_Long" [],
          TSType.keyword KeywordKind.bigint, TSType.keyword KeywordKind.number] ++
          (if true then [TSType.nullLiteral] else []))) ∧
    ((javaTypeToTypescriptType "a.A" "long" false true stEmpty).1
      = TSType.union [TSType.keyword KeywordKind.number]) ∧
    ((javaTypeToTypescriptType "a.A" "java.lang.Long" false true stEmpty).1
      = TSType.union ([TSType.keyword KeywordKind.number] ++
          (if true then [TSType.nullLiteral] else []))) :=
  C4_long_union "a.A" true stEmpty (by decide)

/-- C9 counterexample: a self-typed public FIELD of class `a.B` is emitted
with the suffixed self alias `BClass`, not the plain simple-name reference
`B` — fields are mapped with the parameter-position flag, refuting the
claim's grouping of field position with return position. -/
theorem C9_counterexample :
    ((convertFieldsAux "a.B" [⟨pubM, "x", "a.B"⟩]
        (⟨["a.B"], [], [], false⟩ : GenState)).1.map ClassElement.propType
      = [some (TSType.union [TSType.reference "BClass" [],
          TSType.nullLiteral])]) ∧
    ¬ TSType.reference "BClass" [] = TSType.reference "B" [] :=
  ⟨rfl, by simp⟩

/-- C9 (amended): when the class currently being generated is referenced by
its own fully-qualified name with the parameter-position flag set (method
parameters, and also fields, which are mapped as parameters), the emitted
type reference uses the self alias `simple name ++ "Class"`, which is
distinct from the plain simple-name reference emitted for the same class
name in return position (flag unset); references to any other class use the
dotted name with namespace separators replaced by underscores. -/
theorem C9_self_alias :
    ∀ (classname : String) (st : GenState),
      ((createTypeReferenceNode classname true classname st).1
        = TSType.reference (lastSegment classname ++ "Class") []) ∧
      ((createTypeReferenceNode classname false classname st).1
        = TSType.reference (lastSegment classname) []) ∧
      ¬ (lastSegment classname ++ "Class" = lastSegment classname) ∧
      (∀ (n : String) (p : Bool), ¬ n = classname →
        (createTypeReferenceNode classname p n st).1
          = TSType.reference (dotsToUnderscores n) []) := by
  intro classname st
  refine ⟨?_, ?_, ?_, ?_⟩
  · simp [createTypeReferenceNode]
  · simp [createTypeReferenceNode]
  · intro h
    have hlen := congrArg String.length h
    rw [String.length_append] at hlen
    have h5 : ("Class" : String).length = 5 := rfl
    rw [h5] at hlen
    omega
  · intro n p hn
    simp [createTypeReferenceNode, hn]

theorem C9_self_alias_witness :
    ((createTypeReferenceNode "a.B" true "a.B" stEmpty).1
      = TSType.reference (lastSegment "a.B" ++ "Class") []) ∧
    ((createTypeReferenceNode "a.B" false "a.B" stEmpty).1
      = TSType.reference (lastSegment "a.B") []) ∧
    ¬ (lastSegment "a.B" ++ "Class" = lastSegment "a.B") ∧
    ((createTypeReferenceNode "a.B" true "x.y.Z" stEmpty).1
      = TSType.reference (dotsToUnderscores "x.y.Z") []) :=
  ⟨(C9_self_alias "a.B" stEmpty).1,
   (C9_self_alias "a.B" stEmpty).2.1,
   (C9_self_alias "a.B" stEmpty).2.2.1,
   (C9_self_alias "a.B" stEmpty).2.2.2 "x.y.Z" true (by decide)⟩

/-- C10 counterexample: the type name `int` — which is neither `void` nor
`java.lang.Void` — also has a mapping that ignores the nullability request
entirely (the result, state included, is identical with strictness on and
off, in both positions), refuting the claim that the void mapping is the
only one that ignores the nullability request. -/
theorem C10_counterexample :
    (¬ ("int" : String) = "void" ∧ ¬ ("int" : String) = "java.lang.Void") ∧
    javaTypeToTypescriptType "a.A" "int" true true stEmpty
      = javaTypeToTypescriptType "a.A" "int" true false stEmpty ∧
    javaTypeToTypescriptType "a.A" "int" false true stEmpty
      = javaTypeToTypescriptType "a.A" "int" false false stEmpty :=
  ⟨⟨by decide, by decide⟩, rfl, rfl⟩

/-- C10 (amended): mapping the foreign type name `void` or `java.lang.Void`
always yields the bare void keyword type — no null union, no wrapper-type
widening, and no state change — in every position (parameter, return, field)
and regardless of the nullability mode; however, it is not the only mapping
that ignores the nullability request (primitive numeric type names such as
`int` also ignore it). -/
theorem C10_void_bare :
    ∀ (classname jt : String) (isParam strict : Bool) (st : GenState),
      (jt = "void" ∨ jt = "java.lang.Void") →
      javaTypeToTypescriptType classname jt isParam strict st
        = (TSType.keyword KeywordKind.void, st) := by
  intro classname jt p s st h
  rcases h with rfl | rfl <;> rfl

theorem C10_void_bare_witness :
    javaTypeToTypescriptType "a.A" "java.lang.Void" true true stEmpty
      = (TSType.keyword KeywordKind.void, stEmpty) :=
  C10_void_bare "a.A" "java.lang.Void" true true stEmpty (Or.inr rfl)

/-! ### Path resolution -/

theorem markCommon_eq :
    ∀ (xs ys : List String),
      markCommonNull (xs.map some) (ys.map some)
        = (List.replicate (commonLen xs ys) none ++
            (xs.drop (commonLen xs ys)).map some,
          List.replicate (commonLen xs ys) none ++
            (ys.drop (commonLen xs ys)).map some) := by
  intro xs
  induction xs with
  | nil => intro ys; cases ys <;> rfl
  | cons x xs ih =>
    intro ys
    cases ys with
    | nil => rfl
    | cons y ys =>
      by_cases hxy : x = y
      · subst hxy
        simp [markCommonNull, commonLen, ih ys, List.replicate_succ]
      · have hxy' : ¬ (some x = some y) := by
          intro hsome
          exact hxy (Option.some.injEq x y ▸ hsome)
        simp [markCommonNull, commonLen, hxy, hxy']

theorem filterTruthy_replicate (k : Nat) (l : List (Option String)) :
    (List.replicate k none ++ l).filter truthySeg = l.filter truthySeg := by
  induction k with
  | zero => rfl
  | succ k ih =>
    simp only [List.replicate_succ, List.cons_append, List.filter_cons]
    simp [truthySeg, ih]

theorem filterTruthy_map_some (l : List String) :
    (l.map some).filter truthySeg
      = (l.filter (fun s => ¬ s = "")).map some := by
  induction l with
  | nil => rfl
  | cons x xs ih =>
    by_cases hx : x = ""
    · subst hx
      simp [truthySeg, ih]
    · simp [truthySeg, hx, ih]

theorem joinSep_blank (l : List String) :
    joinSep "../" (l.map (fun _ => "")) = ascend (l.length - 1) := by
  induction l with
  | nil => rfl
  | cons x xs ih =>
    cases xs with
    | nil => rfl
    | cons y ys =>
      show ("" : String) ++ "../" ++ joinSep "../" ((y :: ys).map (fun _ => ""))
        = ascend ((y :: ys).length)
      rw [ih]
      show ("" : String) ++ "../" ++ ascend ((y :: ys).length - 1)
        = ascend ((y :: ys).length)
      have h1 : (("" : String) ++ "../") = "../" := rfl
      rw [h1]
      rfl

theorem filterMap_id_map_some (l : List String) :
    (l.map some).filterMap id = l := by
  induction l with
  | nil => rfl
  | cons x xs ih => simp [ih]

theorem getPath_eq_spec : ∀ (c i : String), getPath c i = pathBySpec c i := by
  intro c i
  unfold getPath pathBySpec
  dsimp only
  rw [markCommon_eq (splitOnDot c) (splitOnDot i)]
  dsimp only
  rw [filterTruthy_replicate, filterTruthy_replicate, filterTruthy_map_some,
    filterTruthy_map_some, filterMap_id_map_some]
  rw [List.map_map]
  have hmap : ∀ (l : List String),
      l.map ((fun _ => "") ∘ some) = l.map (fun _ => "") := by
    intro l; rfl
  rw [hmap, joinSep_blank]

theorem commonLen_take :
    ∀ (xs ys : List String),
      xs.take (commonLen xs ys) = ys.take (commonLen xs ys) := by
  intro xs
  induction xs with
  | nil => intro ys; cases ys <;> rfl
  | cons x xs ih =>
    intro ys
    cases ys with
    | nil => rfl
    | cons y ys =>
      by_cases hxy : x = y
      · subst hxy
        simp [commonLen, List.take_succ_cons, ih ys]
      · simp [commonLen, hxy]

theorem commonLen_max :
    ∀ (xs ys : List String) (j : Nat), j ≤ xs.length → j ≤ ys.length →
      xs.take j = ys.take j → j ≤ commonLen xs ys := by
  intro xs
  induction xs with
  | nil => intro ys j hj _ _; simp at hj; omega
  | cons x xs ih =>
    intro ys j hj1 hj2 htake
    cases ys with
    | nil => simp at hj2; omega
    | cons y ys =>
      cases j with
      | zero => exact Nat.zero_le _
      | succ j =>
        simp only [List.take_succ_cons, List.cons.injEq] at htake
        obtain ⟨rfl, htail⟩ := htake
        simp only [commonLen, if_pos rfl, if_true]
        have := ih ys j (by simpa using hj1) (by simpa using hj2) htail
        simp [commonLen]
        omega

/-- C8: the relative import path is obtained by stripping the longest common
leading sequence of dotted segments, ascending one directory level for each
remaining importing-side segment beyond the first, and descending along the
remaining imported-side segments: `getPath` agrees with the spec-side
description `pathBySpec` (with `commonLen` being the longest common prefix
length), `a.b.C` importing `a.b.d.E` yields `./d/E`, and `a.b.C` importing
`x.y.Z` yields `./../../x/y/Z`, ascending two levels out of `a/b` and
descending into `x/y/Z`. -/
theorem C8_path_resolution :
    (getPath "a.b.C" "a.b.d.E" = "./d/E") ∧
    (getPath "a.b.C" "x.y.Z" = "./../../x/y/Z") ∧
    (∀ (c i : String), getPath c i = pathBySpec c i) ∧
    (∀ (xs ys : List String),
      xs.take (commonLen xs ys) = ys.take (commonLen xs ys)) ∧
    (∀ (xs ys : List String) (j : Nat), j ≤ xs.length → j ≤ ys.length →
      xs.take j = ys.take j → j ≤ commonLen xs ys) :=
  ⟨rfl, rfl, getPath_eq_spec, commonLen_take, commonLen_max⟩

theorem C8_path_resolution_witness :
    (getPath "a.b.C" "a.b.d.E" = pathBySpec "a.b.C" "a.b.d.E") ∧
    (2 : Nat) ≤ commonLen ["a", "b", "C"] ["a", "b", "d", "E"] :=
  ⟨C8_path_resolution.2.2.1 "a.b.C" "a.b.d.E",
   C8_path_resolution.2.2.2.2 ["a", "b", "C"] ["a", "b", "d", "E"] 2
     (by decide) (by decide) (by decide)⟩

/-! ### Method grouping and fan-out -/

theorem combineG_push (o : Option (List MethodDeclaration))
    (d : MethodDeclaration) (rest : List MethodDeclaration) :
    combineG (some (o.getD [] ++ [d])) rest = combineG o (d :: rest) := by
  cases o <;> cases rest <;> simp [combineG]

theorem combineG_nil (o : Option (List MethodDeclaration)) :
    combineG o [] = o := by
  cases o <;> simp [combineG]

theorem lookupGroup_add_same (res : List (String × List MethodDeclaration))
    (n : String) (d : MethodDeclaration) :
    lookupGroup n (addMethodDecl res n d)
      = some ((lookupGroup n res).getD [] ++ [d]) := by
  induction res with
  | nil => simp [lookupGroup, addMethodDecl, List.find?]
  | cons kv rest ih =>
    by_cases h : kv.1 = n
    · simp [addMethodDecl, h, lookupGroup, List.find?]
    · have hb : (kv.1 == n) = false := by simp [h]
      simp only [addMethodDecl, if_neg h, lookupGroup, List.find?, hb]
      exact ih

theorem lookupGroup_add_other (res : List (String × List MethodDeclaration))
    (n f : String) (d : MethodDeclaration) (h : ¬ f = n) :
    lookupGroup f (addMethodDecl res n d) = lookupGroup f res := by
  induction res with
  | nil =>
    have hb : (n == f) = false := by simp; exact fun e => h e.symm
    simp [lookupGroup, addMethodDecl, List.find?, hb]
  | cons kv rest ih =>
    by_cases hk : kv.1 = n
    · subst hk
      have hb : (kv.1 == f) = false := by simp; exact fun e => h e.symm
      simp [addMethodDecl, lookupGroup, List.find?, hb]
    · by_cases hkf : kv.1 = f
      · simp [addMethodDecl, lookupGroup, List.find?, hkf, h]
      · have hb : (kv.1 == f) = false := by simp [hkf]
        simp only [addMethodDecl, if_neg hk, lookupGroup, List.find?, hb]
        exact ih

theorem convertMethodsAux_lookup :
    ∀ (ms : List JMethod) (acc : List (String × List MethodDeclaration))
      (f : String),
      lookupGroup f (convertMethodsAux ms acc)
        = combineG (lookupGroup f acc)
            ((ms.filter (fun m => m.modifiers.isPublic && m.name == f)).map
              mkDecl) := by
  intro ms
  induction ms with
  | nil => intro acc f; simp [convertMethodsAux, combineG_nil]
  | cons m rest ih =>
    intro acc f
    by_cases hp : m.modifiers.isPublic = true
    · by_cases hn : m.name = f
      · subst hn
        have hfil : (m :: rest).filter
            (fun m' => m'.modifiers.isPublic && m'.name == m.name)
            = m :: rest.filter (fun m' => m'.modifiers.isPublic && m'.name == m.name) := by
          simp [List.filter_cons, hp]
        rw [hfil]
        simp only [convertMethodsAux]
        rw [if_pos hp, ih, lookupGroup_add_same]
        simp only [List.map_cons]
        exact combineG_push (lookupGroup m.name acc) (mkDecl m) _
      · have hfil : (m :: rest).filter
            (fun m' => m'.modifiers.isPublic && m'.name == f)
            = rest.filter (fun m' => m'.modifiers.isPublic && m'.name == f) := by
          simp [List.filter_cons, hp, hn]
        rw [hfil]
        simp only [convertMethodsAux]
        rw [if_pos hp, ih, lookupGroup_add_other acc m.name f _ (fun e => hn e.symm)]
    · have hp' : m.modifiers.isPublic = false := by
        cases hm : m.modifiers.isPublic
        · rfl
        · exact absurd hm hp
      have hfil : (m :: rest).filter
          (fun m' => m'.modifiers.isPublic && m'.name == f)
          = rest.filter (fun m' => m'.modifiers.isPublic && m'.name == f) := by
        simp [List.filter_cons, hp']
      rw [hfil]
      simp only [convertMethodsAux]
      rw [if_neg hp, ih]

theorem convertMethods_lookup (ms : List JMethod) (f : String) :
    lookupGroup f (convertMethods ms)
      = combineG none
          ((ms.filter (fun m => m.modifiers.isPublic && m.name == f)).map
            mkDecl) := by
  rw [convertMethods, convertMethodsAux_lookup]
  rfl

theorem mapJavaType_notPromise (c : String) (rev : List Char) (p s : Bool)
    (st : GenState) : isPromiseType (mapJavaType c rev p s st).1 = false := by
  unfold mapJavaType
  dsimp only
  repeat' split
  all_goals simp [isPromiseType, createTypeReferenceNode]

theorem jt_notPromise (c jt : String) (p s : Bool) (st : GenState) :
    isPromiseType (javaTypeToTypescriptType c jt p s st).1 = false :=
  mapJavaType_notPromise c jt.data.reverse p s st

theorem isPromiseType_promise (t : TSType) :
    isPromiseType (TSType.reference "Promise" [t]) = true := by
  simp [isPromiseType]

/-- C5: for a class whose metadata contains exactly two public overloads of a
method named `f`, the grouping step maps `f` to exactly those two converted
overloads, and the conversion of that group emits exactly four method
declarations: an asynchronous declaration (named `f`, return type wrapped in
`Promise<...>`) and a synchronous declaration (named `f ++ "Sync"`, return
type left bare) per overload, in overload order. -/
theorem C5_overload_fanout :
    ∀ (methods : List JMethod) (f : String) (a b : JMethod)
      (classname : String) (st : GenState),
      methods.filter (fun m => m.modifiers.isPublic && m.name == f) = [a, b] →
      (lookupGroup f (convertMethods methods) = some [mkDecl a, mkDecl b]) ∧
      ((convertMethod classname [mkDecl a, mkDecl b] f st).1.length = 4) ∧
      ((convertMethod classname [mkDecl a, mkDecl b] f st).1.map
          ClassElement.mName
        = [some f, some (f ++ "Sync"), some f, some (f ++ "Sync")]) ∧
      ((convertMethod classname [mkDecl a, mkDecl b] f st).1.map
          (fun el => el.mReturn.map isPromiseType)
        = [some true, some false, some true, some false]) := by
  intro methods f a b classname st hfil
  refine ⟨?_, ?_, ?_, ?_⟩
  · rw [convertMethods_lookup, hfil]
    simp [combineG]
  · simp [convertMethod, convertMethodAux, createMethod]
  · simp [convertMethod, convertMethodAux, createMethod, ClassElement.mName,
      String.append_empty]
  · simp [convertMethod, convertMethodAux, createMethod, ClassElement.mReturn,
      isPromiseType_promise, jt_notPromise]

/-! ### Null-suppression on return types -/

theorem mapJavaType_noTopNull (c : String) (rev : List Char) (p : Bool)
    (st : GenState) : hasTopNull (mapJavaType c rev p false st).1 = false := by
  unfold mapJavaType
  dsimp only
  repeat' split
  all_goals
    first
      | (simp [hasTopNull, listHasNull, createTypeReferenceNode]; done)
      | (exfalso; rename_i hfalse; simp at hfalse)

theorem jt_noTopNull (c jt : String) (p : Bool) (st : GenState) :
    hasTopNull (javaTypeToTypescriptType c jt p false st).1 = false :=
  mapJavaType_noTopNull c jt.data.reverse p st

theorem mapJavaType_noTopNull_strip (c : String) (rev : List Char) (p : Bool)
    (st : GenState) :
    hasTopNull (stripPromise (mapJavaType c rev p false st).1) = false := by
  unfold mapJavaType
  dsimp only
  repeat' split
  all_goals
    first
      | (simp [hasTopNull, listHasNull, stripPromise, createTypeReferenceNode]; done)
      | (exfalso; rename_i hfalse; simp at hfalse)

theorem jt_noTopNull_strip (c jt : String) (p : Bool) (st : GenState) :
    hasTopNull (stripPromise (javaTypeToTypescriptType c jt p false st).1)
      = false :=
  mapJavaType_noTopNull_strip c jt.data.reverse p st

theorem convertMethodAux_noNull (c name : String) :
    ∀ (l : List MethodDeclaration) (i : Nat) (st : GenState),
      ∀ el ∈ (convertMethodAux c name true l i st).1,
        el.mReturn.map (fun t => hasTopNull (stripPromise t)) = some false := by
  intro l
  induction l with
  | nil => intro i st el hel; exact absurd hel (List.not_mem_nil el)
  | cons m rest ih =>
    intro i st el hel
    simp only [convertMethodAux, List.mem_cons] at hel
    rcases hel with rfl | hel
    · simp [createMethod, ClassElement.mReturn, stripPromise, jt_noTopNull]
    · rcases hel with rfl | hel
      · simp [createMethod, ClassElement.mReturn, jt_noTopNull_strip]
      · exact ih (i + 1) _ el hel

set_option maxHeartbeats 1000000 in
theorem mapJavaType_fst_irrel_aux (c : String) (n : Nat) :
    ∀ (rev : List Char) (p s : Bool) (st st' : GenState), rev.length ≤ n →
      (mapJavaType c rev p s st).1 = (mapJavaType c rev p s st').1 := by
  induction n with
  | zero =>
    intro rev p s st st' hle
    unfold mapJavaType
    dsimp only
    repeat' split
    all_goals
      first
        | rfl
        | (exfalso; simp at hle)
  | succ n ih =>
    intro rev p s st st' hle
    unfold mapJavaType
    dsimp only
    repeat' split
    all_goals
      first
        | rfl
        | (rw [ih _ p true st st' (by simp at hle; omega)])

theorem jt_fst_irrel (c jt : String) (p s : Bool) (st st' : GenState) :
    (javaTypeToTypescriptType c jt p s st).1
      = (javaTypeToTypescriptType c jt p s st').1 :=
  mapJavaType_fst_irrel_aux c jt.data.reverse.length jt.data.reverse p s st st'
    (Nat.le_refl _)

theorem convertParamsAux_fst_irrel (c : String) :
    ∀ (l : List String) (i : Nat) (st st' : GenState),
      (convertParamsAux c l i st).1 = (convertParamsAux c l i st').1 := by
  intro l
  induction l with
  | nil => intro i st st'; rfl
  | cons p rest ih =>
    intro i st st'
    simp only [convertParamsAux, convertParameter]
    rw [jt_fst_irrel c p true true st st',
      ih (i + 1) (javaTypeToTypescriptType c p true true st).2
        (javaTypeToTypescriptType c p true true st').2]

/-- C7: for a method whose name is in the fixed non-null-return set
(`toString`, `wait`, `getClass`, `hashCode`, `notify`, `notifyAll`,
`equals`), every emitted declaration's return type (under the `Promise`
wrapper for the asynchronous variant) carries no top-level null union; a
method of the `toString` shape (no parameters, `java.lang.String` return)
with any name outside the set emits return types unioned with null in both
variants; and the suppression flag does not affect the emitted parameter
list. -/
theorem C7_nonnull_return :
    ∀ (classname name : String) (st : GenState),
      ((name ∈ nonNullReturnMethods →
        ∀ (group : List MethodDeclaration),
          ∀ el ∈ (convertMethod classname group name st).1,
            el.mReturn.map (fun t => hasTopNull (stripPromise t))
              = some false)) ∧
      ((¬ name ∈ nonNullReturnMethods →
        ∀ (isStatic : Bool),
          (convertMethod classname [⟨"java.lang.String", [], isStatic⟩] name
              st).1.map
            (fun el => el.mReturn.map (fun t => hasTopNull (stripPromise t)))
          = [some true, some true])) ∧
      (∀ (m : MethodDeclaration) (i : Nat) (isSync b1 b2 : Bool),
        ClassElement.paramsOf (createMethod classname m name i isSync b1 st).1
          = ClassElement.paramsOf
              (createMethod classname m name i isSync b2 st).1) := by
  intro classname name st
  refine ⟨?_, ?_, ?_⟩
  · intro hname group el hel
    have hb : nonNullReturnMethods.contains name = true :=
      List.elem_iff.mpr hname
    rw [convertMethod, hb] at hel
    exact convertMethodAux_noNull classname name group 0 st el hel
  · intro hname isStatic
    have hb : nonNullReturnMethods.contains name = false := by
      cases hcc : nonNullReturnMethods.contains name
      · rfl
      · exact absurd (List.elem_iff.mp hcc) hname
    have key : ∀ (st' : GenState),
        (javaTypeToTypescriptType classname "java.lang.String" false
          true st').1 = TSType.union [TSType.keyword KeywordKind.string,
            TSType.nullLiteral] := fun st' => rfl
    rw [convertMethod, hb]
    simp [convertMethodAux, createMethod, ClassElement.mReturn, stripPromise,
      key, hasTopNull, listHasNull]
  · intro m i isSync b1 b2
    simp only [createMethod, ClassElement.paramsOf, convertParameters]
    exact convertParamsAux_fst_irrel classname m.parameters 0 _ _

theorem C7_nonnull_return_witness :
    (∀ el ∈ (convertMethod "a.A" [⟨"java.lang.String", [], false⟩] "toString"
        stEmpty).1,
      el.mReturn.map (fun t => hasTopNull (stripPromise t)) = some false) ∧
    ((convertMethod "a.A" [⟨"java.lang.String", [], false⟩] "compute"
        stEmpty).1.map
      (fun el => el.mReturn.map (fun t => hasTopNull (stripPromise t)))
      = [some true, some true]) ∧
    (ClassElement.paramsOf
        (createMethod "a.A" ⟨"java.lang.String", ["int"], false⟩ "compute" 0
          false true stEmpty).1
      = ClassElement.paramsOf
          (createMethod "a.A" ⟨"java.lang.String", ["int"], false⟩ "compute" 0
            false false stEmpty).1) :=
  ⟨(C7_nonnull_return "a.A" "toString" stEmpty).1 (by simp [nonNullReturnMethods])
      [⟨"java.lang.String", [], false⟩],
   (C7_nonnull_return "a.A" "compute" stEmpty).2.1
      (by simp [nonNullReturnMethods]) false,
   (C7_nonnull_return "a.A" "compute" stEmpty).2.2
      ⟨"java.lang.String", ["int"], false⟩ 0 false true false⟩

/-! ### Constructor duality -/

theorem mName_none_not_named (el : ClassElement) (n : String)
    (h : el.mName = none) : el.isMethodNamed n = false := by
  cases el <;> simp_all [ClassElement.mName, ClassElement.isMethodNamed]

theorem mName_some_named (el : ClassElement) (nm n : String)
    (h : el.mName = some nm) : el.isMethodNamed n = (nm == n) := by
  cases el <;> simp_all [ClassElement.mName, ClassElement.isMethodNamed]

theorem sync_ne_newInstance (s : String) : ¬ (s ++ "Sync" = "newInstance") := by
  intro h
  have hd : s.data ++ "Sync".data = "newInst".data ++ "ance".data := by
    have h2 := congrArg String.data h
    rw [String.data_append] at h2
    exact h2.trans (by rfl)
  have htail := (List.append_inj' hd (by decide)).2
  exact absurd htail (by decide)

theorem convertParamsAux_length (c : String) :
    ∀ (l : List String) (i : Nat) (st : GenState),
      (convertParamsAux c l i st).1.length = l.length := by
  intro l
  induction l with
  | nil => intro i st; rfl
  | cons p rest ih =>
    intro i st
    simp only [convertParamsAux, List.length_cons, ih]

theorem convertFieldsAux_shape (c : String) :
    ∀ (fields : List JField) (st : GenState),
      ∀ el ∈ (convertFieldsAux c fields st).1,
        el.isCtor = false ∧ el.mName = none := by
  intro fields
  induction fields with
  | nil => intro st el hel; exact absurd hel (List.not_mem_nil el)
  | cons f rest ih =>
    intro st el hel
    simp only [convertFieldsAux] at hel
    split at hel
    · simp only [List.mem_cons] at hel
      rcases hel with rfl | hel
      · exact ⟨rfl, rfl⟩
      · exact ih _ el hel
    · exact ih _ el hel

theorem convertMethodAux_shape (c name : String) (nn : Bool) :
    ∀ (l : List MethodDeclaration) (i : Nat) (st : GenState),
      ∀ el ∈ (convertMethodAux c name nn l i st).1,
        el.isCtor = false ∧
          (el.mName = some name ∨ el.mName = some (name ++ "Sync")) := by
  intro l
  induction l with
  | nil => intro i st el hel; exact absurd hel (List.not_mem_nil el)
  | cons m rest ih =>
    intro i st el hel
    simp only [convertMethodAux, List.mem_cons] at hel
    rcases hel with rfl | rfl | hel
    · refine ⟨rfl, Or.inl ?_⟩
      simp [createMethod, ClassElement.mName, String.append_empty]
    · exact ⟨rfl, Or.inr rfl⟩
    · exact ih (i + 1) _ el hel

theorem convertGroups_shape (c : String) :
    ∀ (groups : List (String × List MethodDeclaration)) (st : GenState),
      ∀ el ∈ (convertGroups c groups st).1,
        el.isCtor = false ∧
          ∃ kv ∈ groups,
            el.mName = some kv.1 ∨ el.mName = some (kv.1 ++ "Sync") := by
  intro groups
  induction groups with
  | nil => intro st el hel; exact absurd hel (List.not_mem_nil el)
  | cons kv rest ih =>
    intro st el hel
    simp only [convertGroups, List.mem_append] at hel
    rcases hel with hel | hel
    · obtain ⟨h1, h2⟩ := convertMethodAux_shape c kv.1
        (nonNullReturnMethods.contains kv.1) kv.2 0 st el hel
      exact ⟨h1, kv, List.mem_cons_self kv rest, h2⟩
    · obtain ⟨h1, kv', hkv', h2⟩ := ih _ el hel
      exact ⟨h1, kv', List.mem_cons_of_mem kv hkv', h2⟩

theorem addMethodDecl_keys (n : String) (d : MethodDeclaration) :
    ∀ (res : List (String × List MethodDeclaration)) (x : String),
      x ∈ (addMethodDecl res n d).map Prod.fst →
        x = n ∨ x ∈ res.map Prod.fst := by
  intro res
  induction res with
  | nil => intro x hx; simp only [addMethodDecl, List.map_cons, List.map_nil,
      List.mem_singleton] at hx; exact Or.inl hx
  | cons kv rest ih =>
    intro x hx
    simp only [addMethodDecl] at hx
    split at hx
    · simp only [List.map_cons, List.mem_cons] at hx
      rcases hx with rfl | hx
      · exact Or.inr (List.mem_cons_self _ _)
      · exact Or.inr (List.mem_cons_of_mem _ hx)
    · simp only [List.map_cons, List.mem_cons] at hx
      rcases hx with rfl | hx
      · exact Or.inr (List.mem_cons_self _ _)
      · rcases ih x hx with rfl | hx'
        · exact Or.inl rfl
        · exact Or.inr (List.mem_cons_of_mem _ hx')

theorem convertMethodsAux_keys :
    ∀ (ms : List JMethod) (acc : List (String × List MethodDeclaration))
      (x : String),
      x ∈ (convertMethodsAux ms acc).map Prod.fst →
        x ∈ acc.map Prod.fst ∨
          ∃ m ∈ ms, m.modifiers.isPublic = true ∧ x = m.name := by
  intro ms
  induction ms with
  | nil => intro acc x hx; exact Or.inl hx
  | cons m rest ih =>
    intro acc x hx
    simp only [convertMethodsAux] at hx
    split at hx
    · rcases ih _ x hx with hx' | ⟨m', hm', hpub, rfl⟩
      · rcases addMethodDecl_keys m.name _ acc x hx' with rfl | hx''
        · exact Or.inr ⟨m, List.mem_cons_self m rest, by assumption, rfl⟩
        · exact Or.inl hx''
      · exact Or.inr ⟨m', List.mem_cons_of_mem m hm', hpub, rfl⟩
    · rcases ih _ x hx with hx' | ⟨m', hm', hpub, rfl⟩
      · exact Or.inl hx'
      · exact Or.inr ⟨m', List.mem_cons_of_mem m hm', hpub, rfl⟩

theorem convertMethods_keys (ms : List JMethod) (x : String) :
    x ∈ (convertMethods ms).map Prod.fst →
      ∃ m ∈ ms, m.modifiers.isPublic = true ∧ x = m.name := by
  intro hx
  rcases convertMethodsAux_keys ms [] x hx with hx' | h
  · exact absurd hx' (List.not_mem_nil x)
  · exact h

theorem methodMembers_not_newInstance (c : String) (ms : List JMethod)
    (st : GenState)
    (h3 : ∀ m ∈ ms, m.modifiers.isPublic = true → ¬ m.name = "newInstance") :
    ∀ el ∈ (convertGroups c (convertMethods ms) st).1,
      el.isMethodNamed "newInstance" = false := by
  intro el hel
  obtain ⟨_, kv, hkv, hname⟩ := convertGroups_shape c (convertMethods ms) st el hel
  have hkey : ∃ m ∈ ms, m.modifiers.isPublic = true ∧ kv.1 = m.name :=
    convertMethods_keys ms kv.1 (List.mem_map_of_mem Prod.fst hkv)
  obtain ⟨m, hm, hpub, hkeq⟩ := hkey
  have hne : ¬ kv.1 = "newInstance" := by
    rw [hkeq]
    exact h3 m hm hpub
  rcases hname with hname | hname
  · rw [mName_some_named el kv.1 "newInstance" hname]
    simp [hne]
  · rw [mName_some_named el (kv.1 ++ "Sync") "newInstance" hname]
    simp [sync_ne_newInstance kv.1]

/-- C6: a concrete (non-abstract, non-interface) class whose metadata has
exactly one public constructor with parameter list `t` (and no public method
named `newInstance`, so that the factory can be identified by name) yields in
its class body exactly one constructor declaration, of arity `t.length`, and
exactly one static `newInstance` factory declaration, of arity `t.length`,
with no stub in the export statement; an abstract class or interface yields
zero constructor declarations in the class body and exactly the single
private stub constructor in the export statement, regardless of its declared
constructors. -/
theorem C6_constructor_duality :
    ∀ (classname : String) (rI : List String) (cls : ClassInfo)
      (t : List String),
      ((cls.isInterface || cls.modifiers.isAbstract) = false →
        (cls.constructors.filter (fun c => c.modifiers.isPublic)).map
            (fun c => c.parameterTypes) = [t] →
        (∀ m ∈ cls.methods, m.modifiers.isPublic = true →
          ¬ m.name = "newInstance") →
        (((buildModule classname rI cls).1.classMembers.filter
            ClassElement.isCtor).map (fun el => el.paramsOf.length)
          = [t.length]) ∧
        (((buildModule classname rI cls).1.classMembers.filter
            (ClassElement.isMethodNamed "newInstance")).map
            (fun el => (el.paramsOf.length, el.isStaticEl))
          = [(t.length, true)]) ∧
        (buildModule classname rI cls).1.exportClassMembers = []) ∧
      ((cls.isInterface || cls.modifiers.isAbstract) = true →
        ((buildModule classname rI cls).1.classMembers.filter
            ClassElement.isCtor = []) ∧
        (buildModule classname rI cls).1.exportClassMembers
          = [createPrivateConstructor]) := by
  intro classname rI cls t
  constructor
  · intro h1 h2 h3
    simp only [buildModule, h1, if_neg, Bool.false_eq_true, not_false_iff,
      convertConstructors, h2]
    simp only [convertCtorDecls, convertNewInstance]
    refine ⟨?_, ?_, by trivial⟩
    · rw [List.filter_append, List.filter_append]
      rw [List.filter_eq_nil_iff.mpr (fun el hel => by
        simp [(convertFieldsAux_shape classname _ _ el hel).1])]
      rw [List.filter_eq_nil_iff.mpr (fun el hel => by
        simp [(convertGroups_shape classname _ _ el hel).1])]
      simp only [List.nil_append, List.filter_append]
      simp [ClassElement.isCtor, createMethod, ClassElement.paramsOf,
        convertParameters, convertParamsAux_length]
    · rw [List.filter_append, List.filter_append]
      rw [List.filter_eq_nil_iff.mpr (fun el hel => by
        simp [mName_none_not_named el "newInstance"
          (convertFieldsAux_shape classname _ _ el hel).2])]
      rw [List.filter_eq_nil_iff.mpr (fun el hel => by
        simp [methodMembers_not_newInstance classname cls.methods _ h3 el hel])]
      simp only [List.nil_append, List.filter_append]
      simp [ClassElement.isMethodNamed, ClassElement.isCtor, createMethod,
        ClassElement.paramsOf, ClassElement.isStaticEl, convertParameters,
        convertParamsAux_length, String.append_empty]
  · intro h1
    simp only [buildModule, h1, if_pos]
    refine ⟨?_, by trivial⟩
    rw [List.filter_append, List.filter_append]
    rw [List.filter_eq_nil_iff.mpr (fun el hel => by
      simp [(convertFieldsAux_shape classname _ _ el hel).1])]
    rw [List.filter_eq_nil_iff.mpr (fun el hel => by
      simp [(convertGroups_shape classname _ _ el hel).1])]
    rfl

theorem C6_constructor_duality_witness :
    (((buildModule "a.A" ["a.A"] clsOv).1.classMembers.filter
        ClassElement.isCtor).map (fun el => el.paramsOf.length) = [1]) ∧
    (((buildModule "a.A" ["a.A"] clsOv).1.classMembers.filter
        (ClassElement.isMethodNamed "newInstance")).map
        (fun el => (el.paramsOf.length, el.isStaticEl)) = [(1, true)]) ∧
    ((buildModule "a.A" ["a.A"] clsOv).1.exportClassMembers = []) ∧
    (((buildModule "a.A" ["a.A"] clsAbs).1.classMembers.filter
        ClassElement.isCtor = []) ∧
      (buildModule "a.A" ["a.A"] clsAbs).1.exportClassMembers
        = [createPrivateConstructor]) := by
  obtain ⟨hc, hni, hexp⟩ :=
    (C6_constructor_duality "a.A" ["a.A"] clsOv ["java.lang.String"]).1
      rfl rfl (by decide)
  exact ⟨hc, hni, hexp,
    (C6_constructor_duality "a.A" ["a.A"] clsAbs ["java.lang.String"]).2 rfl⟩

theorem C5_overload_fanout_witness :
    (lookupGroup "compute" (convertMethods clsOv.methods)
      = some [mkDecl mCompute0, mkDecl mCompute1]) ∧
    ((convertMethod "a.A" [mkDecl mCompute0, mkDecl mCompute1] "compute"
        stEmpty).1.length = 4) ∧
    ((convertMethod "a.A" [mkDecl mCompute0, mkDecl mCompute1] "compute"
        stEmpty).1.map ClassElement.mName
      = [some "compute", some ("compute" ++ "Sync"), some "compute",
          some ("compute" ++ "Sync")]) ∧
    ((convertMethod "a.A" [mkDecl mCompute0, mkDecl mCompute1] "compute"
        stEmpty).1.map (fun el => el.mReturn.map isPromiseType)
      = [some true, some false, some true, some false]) :=
  C5_overload_fanout clsOv.methods "compute" mCompute0 mCompute1 "a.A" stEmpty
    rfl

end TsGen
